import Mathlib

/-!
Verification development for the `react-native-animation-scenario` engine.

The development shallowly embeds the two core subsystems of the repository:

* `compileScenario` (src/compileScenario.js): recursive flattening of a
  scenario with nested `use` blocks into a linear step list, label
  registration, and the validation passes (reference validation, goto/ifJump
  label validation, ifThen/ifElse/ifEnd balance validation), followed by the
  error-management step (raise one aggregated de-duplicated failure, or
  return the error list as data).
* the step machine of `useAnimationScenario` (src/useAnimationScenario.js):
  the control-flow part of `runStep` (cursor, single-slot return-address
  register, hold resolver, stop flag, vibration-fired flag), the
  bracket-matching walk `jumpTo`, one iteration of the auto driving loop
  `runAuto`, and the manual-mode `nextStep`.

Scenario entries are dynamically typed JavaScript values, so the embedding
works over a small model `JSVal` of the JavaScript values the code inspects,
with faithful `typeof`, truthiness, property access, `String(...)` coercion
and `JSON.stringify` where the code uses them.  Asynchrony carries no control
content for the embedded fragment: `await` points of `runStep` either leave
the interpreter registers untouched (animations, delays, callbacks) or are
modelled explicitly (the `hold` resolver and its deferred continuation).
External resolution of dynamic `condition` fields is modelled by an oracle
giving the resolved value at each step index.
-/

namespace AnimScn

/-- A JavaScript value, as far as the scenario compiler and the step machine
inspect values: `undefined`, `null`, booleans, (integer-valued) numbers,
strings, opaque function values, objects (ordered field lists) and arrays. -/
inductive JSVal where
  | vUndef
  | vNull
  | vBool (b : Bool)
  | vNum (n : Int)
  | vStr (s : String)
  | vFun (tag : String)
  | vObj (fields : List (String × JSVal))
  | vArr (elems : List JSVal)
  deriving Repr, Inhabited

/-- Joining with a separator (`Array.prototype.join` / template assembly),
written as a plain list recursion so that closed applications reduce. -/
def joinWith (sep : String) : List String → String
  | [] => ""
  | [x] => x
  | x :: y :: rest => x ++ sep ++ joinWith sep (y :: rest)

/-- JSON string escaping over the character list (the characters the
repository's data can contain). -/
def jsonEscapeChars : List Char → String
  | [] => ""
  | c :: rest =>
    (if c = '"' then "\\\"" else if c = '\\' then "\\\\" else String.singleton c)
      ++ jsonEscapeChars rest

/-- JSON string escaping. -/
def jsonEscape (s : String) : String := jsonEscapeChars s.data

namespace JSVal

/-- JavaScript `typeof`. -/
def typeOf : JSVal → String
  | vUndef => "undefined"
  | vNull => "object"
  | vBool _ => "boolean"
  | vNum _ => "number"
  | vStr _ => "string"
  | vFun _ => "function"
  | vObj _ => "object"
  | vArr _ => "object"

/-- JavaScript truthiness (integer-valued numbers only: `NaN` is not modelled). -/
def truthy : JSVal → Bool
  | vUndef => false
  | vNull => false
  | vBool b => b
  | vNum n => decide (n ≠ 0)
  | vStr s => decide (s ≠ "")
  | vFun _ => true
  | vObj _ => true
  | vArr _ => true

/-- Property access `v.k` on the values the code reads fields from: a named
field of an object, `undefined` otherwise (in particular on arrays, whose
named properties the code never sets). -/
def getField : JSVal → String → JSVal
  | vObj fields, k => (fields.lookup k).getD vUndef
  | _, _ => vUndef

/-- Strict equality `v === undefined`. -/
def isUndef : JSVal → Bool
  | vUndef => true
  | _ => false

/-- Strict equality `v === t` of a value against a string literal `t`. -/
def strIs (v : JSVal) (t : String) : Bool :=
  match v with
  | vStr s => s == t
  | _ => false

/-- Strict equality `v.type === t` against a string literal `t`. -/
def typeIs (v : JSVal) (t : String) : Bool := strIs (v.getField "type") t

mutual
/-- `String(v)` coercion as used by template literals, for the value shapes
reaching the code's error messages. -/
def jsToString : JSVal → String
  | vUndef => "undefined"
  | vNull => "null"
  | vBool b => if b then "true" else "false"
  | vNum n => toString n
  | vStr s => s
  | vFun tag => tag
  | vObj _ => "[object Object]"
  | vArr elems => joinWith "," (jsToStringElems elems)

/-- Element coercion of `Array.prototype.join`: `null`/`undefined` become
empty, other elements are `String(...)`-coerced. -/
def jsToStringElems : List JSVal → List String
  | [] => []
  | vUndef :: rest => "" :: jsToStringElems rest
  | vNull :: rest => "" :: jsToStringElems rest
  | v :: rest => jsToString v :: jsToStringElems rest
end
end JSVal

mutual
/-- `JSON.stringify(v)`: `none` models the call returning `undefined`
(on `undefined` and function values). -/
def jsonStringify : JSVal → Option String
  | .vUndef => none
  | .vFun _ => none
  | .vNull => some "null"
  | .vBool b => some (if b then "true" else "false")
  | .vNum n => some (toString n)
  | .vStr s => some ("\"" ++ jsonEscape s ++ "\"")
  | .vArr elems => some ("[" ++ joinWith "," (jsonStringifyElems elems) ++ "]")
  | .vObj fields => some ("\x7b" ++ joinWith "," (jsonStringifyFields fields) ++ "\x7d")

/-- Array elements under `JSON.stringify`: unrepresentable values become `null`. -/
def jsonStringifyElems : List JSVal → List String
  | [] => []
  | v :: rest => ((jsonStringify v).getD "null") :: jsonStringifyElems rest

/-- Object fields under `JSON.stringify`: unrepresentable values are skipped. -/
def jsonStringifyFields : List (String × JSVal) → List String
  | [] => []
  | (k, v) :: rest =>
    match jsonStringify v with
    | none => jsonStringifyFields rest
    | some sv => ("\"" ++ jsonEscape k ++ "\":" ++ sv) :: jsonStringifyFields rest
end

/-- A template literal holding `JSON.stringify(v)`: an `undefined` result is
coerced to the text `undefined`. -/
def stringifyTpl (v : JSVal) : String := (jsonStringify v).getD "undefined"

/-! ## The scenario compiler (src/compileScenario.js) -/

/-- The compiler's accumulating state: the mutable `steps`, `labels`,
`labelSet` and `validationErrors` of `compileScenario`, threaded through the
recursive `flatten`.  `labels` keeps JavaScript object insertion order;
`labelSet` is a set (its order is irrelevant). -/
structure CState where
  steps : List JSVal
  labels : List (String × Nat)
  labelSet : List String
  validationErrors : List String
  deriving Repr

/-- `validationErrors.push(msg)`. -/
def pushErr (st : CState) (msg : String) : CState :=
  { st with validationErrors := st.validationErrors ++ [msg] }

/-- `steps.push(step)`. -/
def pushStep (st : CState) (step : JSVal) : CState :=
  { st with steps := st.steps ++ [step] }

/-- Replacement-or-append of one object field: the JavaScript spread
`{ ...step, k: v }` keeps an existing key at its position with the new value
and appends a fresh key. -/
def setField : List (String × JSVal) → String → JSVal → List (String × JSVal)
  | [], k, v => [(k, v)]
  | (k', v') :: rest, k, v =>
    if k' == k then (k, v) :: rest else (k', v') :: setField rest k v

/-- `const annotated = sourceBlock ? { ...step, __sourceBlock: sourceBlock } : step`.
The guard admits only objects and arrays here; spreading an array produces an
object keyed by decimal indices. -/
def annotate (step : JSVal) (sourceBlock : Option JSVal) : JSVal :=
  match sourceBlock with
  | none => step
  | some sv =>
    if sv.truthy then
      match step with
      | .vObj fields => .vObj (setField fields "__sourceBlock" sv)
      | .vArr elems =>
        .vObj (setField (elems.enum.map (fun p => (toString p.1, p.2))) "__sourceBlock" sv)
      | other => other
    else step

/-- The three payload checks of the `ifJump` case of `flatten`, in source
order. -/
def ifJumpErrors (step : JSVal) : List String :=
  (if (step.getField "condition").typeOf != "function"
      && (step.getField "condition").typeOf != "string" then
     ["ifJump must include a valid condition function."] else [])
  ++ (if !(step.getField "labelTrue").truthy
        || (step.getField "labelTrue").typeOf != "string" then
        ["ifJump requires a valid labelTrue."] else [])
  ++ (if (step.getField "labelFalse").truthy
        && (step.getField "labelFalse").typeOf != "string" then
        ["ifJump: labelFalse must be a string if provided."] else [])

/-- The recursive `flatten` of `compileScenario`, threaded over `CState`.
`sourceBlock` is the second parameter (`null` at top level, the `use` step's
`block` value inside a block).  JavaScript recursion can diverge on a cyclic
block registry, so the embedding carries fuel, spending one unit per
processed entry and per block recursion; `none` models a non-terminating
(stack-overflowing) run. -/
def flatten (blocks : List (String × List JSVal)) :
    Nat → List JSVal → Option JSVal → CState → Option CState
  | _, [], _, st => some st
  | 0, _ :: _, _, _ => none
  | fuel + 1, step :: rest, sourceBlock, st =>
    if !step.truthy || step.typeOf != "object" then
      flatten blocks fuel rest sourceBlock
        (pushErr st ("Invalid step in scenario : " ++ stringifyTpl step))
    else if step.typeIs "use" then
      match blocks.lookup (JSVal.jsToString (step.getField "block")) with
      | none =>
        flatten blocks fuel rest sourceBlock
          (pushErr st ("Block '" ++ JSVal.jsToString (step.getField "block") ++ "' not found"))
      | some block =>
        match flatten blocks fuel block (some (step.getField "block")) st with
        | none => none
        | some st' => flatten blocks fuel rest sourceBlock st'
    else if step.typeIs "label" then
      let lbl := step.getField "label"
      if !lbl.truthy || lbl.typeOf != "string" then
        flatten blocks fuel rest sourceBlock
          (pushErr st ("Label must have a string name: " ++ stringifyTpl step))
      else
        let name := JSVal.jsToString lbl
        if st.labelSet.contains name then
          flatten blocks fuel rest sourceBlock
            (pushErr st ("Duplicate label '" ++ name ++ "'"))
        else
          flatten blocks fuel rest sourceBlock
            (pushStep
              { st with
                labelSet := name :: st.labelSet
                labels :=
                  if sourceBlock.isNone then st.labels ++ [(name, st.steps.length)]
                  else st.labels }
              (annotate step sourceBlock))
    else if step.typeIs "ifJump" then
      flatten blocks fuel rest sourceBlock
        (pushStep { st with validationErrors := st.validationErrors ++ ifJumpErrors step }
          (annotate step sourceBlock))
    else
      flatten blocks fuel rest sourceBlock (pushStep st (annotate step sourceBlock))

/-- `seenRefs.has(t)` over the keys of `initialValues`: a `Set` of strings
holds a value only when it is that exact string. -/
def refHas (keys : List String) (v : JSVal) : Bool :=
  match v with
  | .vStr s => keys.contains s
  | _ => false

/-- The errors one step contributes to the reference-validation loop
(missing initial values for its declared targets, then a missing callback). -/
def stepRefErrors (initialValues callbacks : List String) (step : JSVal) : List String :=
  let targets : List JSVal :=
    if (step.getField "target").truthy then [step.getField "target"]
    else
      match step.getField "targets" with
      | .vArr ts => ts.map (fun t => t.getField "target")
      | _ => []
  targets.filterMap (fun t =>
    if refHas initialValues t then none
    else some ("Missing initial value for target: " ++ JSVal.jsToString t))
  ++ (if step.typeIs "callback" && !refHas callbacks (step.getField "name") then
        ["Missing callback function: " ++ JSVal.jsToString (step.getField "name")]
      else [])

/-- `seenLabels.has(v)` over the keys of the compiled `labels` table. -/
def labelsHas (labels : List (String × Nat)) (v : JSVal) : Bool :=
  match v with
  | .vStr s => (labels.lookup s).isSome
  | _ => false

/-- The errors one `goto`/`ifJump` step contributes to the label-existence
loop, in source order. -/
def stepLabelErrors (labels : List (String × Nat)) (step : JSVal) : List String :=
  (if step.typeIs "goto" && !labelsHas labels (step.getField "label") then
     ["Missing label : " ++ JSVal.jsToString (step.getField "label")] else [])
  ++ (if step.typeIs "ifJump" && !labelsHas labels (step.getField "labelTrue") then
        ["Missing label : " ++ JSVal.jsToString (step.getField "labelTrue")] else [])
  ++ (if step.typeIs "ifJump" && (step.getField "labelFalse").truthy
        && !labelsHas labels (step.getField "labelFalse") then
        ["Missing label : " ++ JSVal.jsToString (step.getField "labelFalse")] else [])

/-- An open `ifThen` frame of the balance scan: `{ type: "ifThen", index: i }`
with its `hasElse` mark (the `type` field is the constant `"ifThen"`). -/
structure IfFrame where
  index : Nat
  hasElse : Bool
  deriving Repr, DecidableEq

def elseNoMatchMsg (i : Nat) : String :=
  "\"ifElse\" at step " ++ toString i ++ " has no matching \"ifThen\""

def elseReuseMsg (i : Nat) : String :=
  "\"ifElse\" at step " ++ toString i ++ " already defined for this block"

def endNoMatchMsg (i : Nat) : String :=
  "\"ifEnd\" at step " ++ toString i ++ " has no matching \"ifThen\""

def unclosedMsg (i : Nat) : String :=
  "Unclosed \"ifThen\" at step " ++ toString i

/-- The linear `ifThen`/`ifElse`/`ifEnd` balance scan over the flattened
steps: `i` is the current index, the head of `stack` is the top frame (the
end of the JavaScript array). -/
def ifScanAux : List JSVal → Nat → List IfFrame → List String → List IfFrame × List String
  | [], _, stack, errs => (stack, errs)
  | step :: rest, i, stack, errs =>
    if step.typeIs "ifThen" then
      ifScanAux rest (i + 1) ({ index := i, hasElse := false } :: stack) errs
    else if step.typeIs "ifElse" then
      match stack with
      | [] => ifScanAux rest (i + 1) [] (errs ++ [elseNoMatchMsg i])
      | top :: tail =>
        if top.hasElse then
          ifScanAux rest (i + 1) (top :: tail) (errs ++ [elseReuseMsg i])
        else
          ifScanAux rest (i + 1) ({ top with hasElse := true } :: tail) errs
    else if step.typeIs "ifEnd" then
      match stack with
      | [] => ifScanAux rest (i + 1) [] (errs ++ [endNoMatchMsg i])
      | _ :: tail => ifScanAux rest (i + 1) tail errs
    else ifScanAux rest (i + 1) stack errs

/-- The balance pass on its own: scan errors, then one unclosed-`ifThen`
error per frame left open, bottom of the stack first (`stack.forEach`). -/
def ifBalanceErrors (steps : List JSVal) : List String :=
  let scanned := ifScanAux steps 0 [] []
  scanned.2 ++ scanned.1.reverse.map (fun f => unclosedMsg f.index)

/-- The reference-validation pass on its own. -/
def refErrors (initialValues callbacks : List String) (steps : List JSVal) : List String :=
  steps.flatMap (stepRefErrors initialValues callbacks)

/-- The `goto`/`ifJump` label-existence pass on its own. -/
def gotoLabelErrors (labels : List (String × Nat)) (steps : List JSVal) : List String :=
  (steps.filter (fun s => s.typeIs "goto" || s.typeIs "ifJump")).flatMap
    (stepLabelErrors labels)

/-- `[...new Set(list)]`: de-duplication keeping first occurrences in order. -/
def dedupFirstAux : List String → List String → List String
  | _, [] => []
  | seen, x :: xs =>
    if seen.contains x then dedupFirstAux seen xs
    else x :: dedupFirstAux (x :: seen) xs

def dedupFirst (l : List String) : List String := dedupFirstAux [] l

/-- The aggregated failure message thrown in raising mode. -/
def aggregateMsg (errs : List String) : String :=
  "Scenario validation failed:\n"
    ++ joinWith "\n" ((dedupFirst errs).map (fun e => "• " ++ e))

/-- The compiler's return value `{ steps, labels, validationErrors }`. -/
structure CompileResult where
  steps : List JSVal
  labels : List (String × Nat)
  validationErrors : List String
  deriving Repr

/-- `compileScenario(scenario, { blocks, callbacks, initialValues },
throughErrors)`: flatten, then the reference loop, the `goto`/`ifJump` label
loop and the balance scan, all pushing into the one `validationErrors`
accumulator; finally either throw the aggregated de-duplicated failure
(raising mode with at least one error) or return the result object.  `none`
models a diverging flatten (cyclic blocks, insufficient fuel). -/
def compileScenario (fuel : Nat) (scenario : List JSVal)
    (blocks : List (String × List JSVal)) (callbacks : List String)
    (initialValues : List String) (throughErrors : Bool) :
    Option (Except String CompileResult) :=
  match flatten blocks fuel scenario none ⟨[], [], [], []⟩ with
  | none => none
  | some st =>
    let errs1 := st.steps.foldl
      (fun acc step => acc ++ stepRefErrors initialValues callbacks step)
      st.validationErrors
    let errs2 := (st.steps.filter (fun s => s.typeIs "goto" || s.typeIs "ifJump")).foldl
      (fun acc step => acc ++ stepLabelErrors st.labels step) errs1
    let scanned := ifScanAux st.steps 0 [] errs2
    let errs3 := scanned.1.reverse.foldl (fun acc f => acc ++ [unclosedMsg f.index]) scanned.2
    some
      (if throughErrors && !errs3.isEmpty then
        Except.error (aggregateMsg errs3)
      else
        Except.ok { steps := st.steps, labels := st.labels, validationErrors := errs3 })

/-! ## Step helpers (src/scenarioEngine.js), used to build concrete scenarios -/

namespace Helpers

/-- `move(target, to, duration, label, easing, native = true)` (`to` is a
keyword in Lean, so the parameter is `toV`). -/
def move (target toV duration lbl easing native : JSVal) : JSVal :=
  .vObj
    ([("type", .vStr "move"), ("target", target), ("to", toV), ("duration", duration)]
      ++ (if lbl.truthy then [("label", lbl)] else [])
      ++ (if easing.truthy then [("easing", easing)] else [])
      ++ [("native", native)])

/-- `label(label)`. -/
def label (l : JSVal) : JSVal :=
  .vObj ([("type", .vStr "label")] ++ (if l.truthy then [("label", l)] else []))

/-- `comment(comment)`. -/
def comment (c : JSVal) : JSVal :=
  .vObj ([("type", .vStr "comment")] ++ (if c.truthy then [("comment", c)] else []))

/-- `use(block)`. -/
def use (block : JSVal) : JSVal := .vObj [("type", .vStr "use"), ("block", block)]

/-- `goto(label)`. -/
def goto (l : JSVal) : JSVal :=
  .vObj ([("type", .vStr "goto")] ++ (if l.truthy then [("label", l)] else []))

end Helpers

/-! ## The step machine (src/useAnimationScenario.js)

The embedding covers the control-flow content of the hook: the compiled
program (`steps` and `labels`), the mutable refs `stepIndexRef`,
`callingStepIndexRef`, `holdResolver`, `vibrationTriggered` and `shouldStop`,
the per-step dispatch `runStep`, the bracket-matching walk `jumpTo`, one
iteration of `runAuto`'s driving loop, and the manual-mode `nextStep`.
Value-driver effects (`move`, `parallel`, `set` writes, delays, haptics,
callbacks) touch none of those registers; the resolved value of a dynamic
`condition` is supplied by an oracle indexed by the step's position. -/

/-- A compiled program as the hook consumes it. -/
structure Program where
  steps : List JSVal
  labels : List (String × Nat)
  deriving Repr

/-- The interpreter's mutable registers. -/
structure RunState where
  /-- `stepIndexRef.current`: the cursor. -/
  stepIndex : Nat
  /-- `callingStepIndexRef.current`: the single-slot return-address register
  (`none` models `undefined`). -/
  callingStepIndex : Option Nat
  /-- whether `holdResolver.current` holds a pending resolver. -/
  holdPending : Bool
  /-- `vibrationTriggered.current`. -/
  vibrationTriggered : Bool
  /-- `shouldStop.current`. -/
  shouldStop : Bool
  deriving Repr, DecidableEq

/-- How one `runStep` invocation ends: a plain completion, a `return
"jumped"`, an indefinite suspension on `hold` (the promise the step awaits is
unresolved), or a thrown error. -/
inductive StepResult where
  | normal (st : RunState)
  | jumped (st : RunState)
  | suspended (st : RunState)
  | thrown (msg : String) (st : RunState)
  deriving Repr, DecidableEq

/-- The loop body of `jumpTo`, walking the array suffix that starts at index
`i` (the source iterates `i` from `startIndex + 1` to `steps.length - 1`):
`some j` models `return j`, `none` falling off the loop. -/
def jumpToGo (startType : String) (endTypes : List String) :
    List JSVal → Nat → Nat → Option Nat
  | [], _, _ => none
  | s :: rest, i, depth =>
    if s.typeIs startType then jumpToGo startType endTypes rest (i + 1) (depth + 1)
    else if (endTypes.getLast?).any (fun t => s.typeIs t) && depth > 0 then
      jumpToGo startType endTypes rest (i + 1) (depth - 1)
    else if endTypes.any (fun t => s.typeIs t) && depth == 0 then some (i + 1)
    else jumpToGo startType endTypes rest (i + 1) depth

/-- `jumpTo(steps, startIndex, startType, endTypes)`: the bracket-matching
walk; `steps.length` is the fallback when the loop finds no match. -/
def jumpTo (steps : List JSVal) (startIndex : Nat) (startType : String)
    (endTypes : List String) : Nat :=
  (jumpToGo startType endTypes (steps.drop (startIndex + 1)) (startIndex + 1) 0).getD
    steps.length

/-- `labels[v]` lookup: the JavaScript member access coerces the key with
`String(...)`. -/
def labelIndex (prog : Program) (v : JSVal) : Option Nat :=
  prog.labels.lookup (JSVal.jsToString v)

/-- One `runStep(step, index)` invocation, restricted to the interpreter
registers.  `condVal index` is the value `evalStepCondition(step.condition)`
resolved to at that index (`vUndef` models a missing condition function, which
only logs a warning).  `refs` is the key set of `animatedRefs.current`
(= the keys of `initialValues`); `vibrationMode` is the hook option. -/
def runStep (prog : Program) (condVal : Nat → JSVal) (refs : List String)
    (vibrationMode : String) (index : Nat) (st : RunState) : StepResult :=
  let step := prog.steps.getD index .vUndef
  if step.typeIs "move" || step.typeIs "timing" then .normal st
  else if step.typeIs "parallel" then .normal st
  else if step.typeIs "delay" then .normal st
  else if step.typeIs "vibrate" then
    if (vibrationMode == "once" && !st.vibrationTriggered) || vibrationMode == "always" then
      .normal
        (if vibrationMode == "once" then { st with vibrationTriggered := true } else st)
    else .normal st
  else if step.typeIs "callback" then .normal st
  else if step.typeIs "hold" then .suspended { st with holdPending := true }
  else if step.typeIs "goto" then
    match labelIndex prog (step.getField "label") with
    | none =>
      .thrown
        ("[useAnimationScenario] Label '" ++ JSVal.jsToString (step.getField "label")
          ++ "' not found") st
    | some targetIndex =>
      .jumped { st with callingStepIndex := some index, stepIndex := targetIndex }
  else if step.typeIs "label" then .normal st
  else if step.typeIs "set" then
    if refs.contains (JSVal.jsToString (step.getField "target")) then .normal st
    else .thrown ("Unknown ref: " ++ JSVal.jsToString (step.getField "target")) st
  else if step.typeIs "resume" then
    match st.callingStepIndex with
    | some targetIndex =>
      .jumped { st with callingStepIndex := none, stepIndex := targetIndex }
    | none => .normal st
  else if step.typeIs "stop" then .normal { st with shouldStop := true }
  else if step.typeIs "ifJump" then
    let result := condVal index
    if !result.isUndef then
      let targetLabel :=
        if result.truthy then step.getField "labelTrue" else step.getField "labelFalse"
      if targetLabel.truthy then
        match labelIndex prog targetLabel with
        | none =>
          .thrown
            ("[useAnimationScenario] Label '" ++ JSVal.jsToString targetLabel
              ++ "' not found") st
        | some targetIndex => .jumped { st with stepIndex := targetIndex }
      else .normal st
    else .normal st
  else if step.typeIs "ifThen" then
    let result := condVal index
    if !result.isUndef && !result.truthy then
      .jumped
        { st with stepIndex := jumpTo prog.steps index "ifThen" ["ifElse", "ifEnd"] }
    else .normal st
  else if step.typeIs "ifElse" then
    .jumped { st with stepIndex := jumpTo prog.steps index "ifThen" ["ifEnd"] }
  else if step.typeIs "ifEnd" then .normal st
  else .normal st

/-- What one iteration of `runAuto`'s `while` loop does. -/
inductive AutoStepRes where
  /-- the guard `stepIndex < steps.length && !shouldStop` failed: the run ends. -/
  | finished (st : RunState)
  /-- the step at `idx` ran and the loop goes on (cursor advanced unless the
  step signalled `"jumped"`). -/
  | stepped (idx : Nat) (st : RunState)
  /-- the step at `idx` ran and `break` fired on the stop flag. -/
  | broke (idx : Nat) (st : RunState)
  /-- the step at `idx` suspended on `hold`: the loop is parked inside the
  `await`. -/
  | held (idx : Nat) (st : RunState)
  /-- the step at `idx` threw: the error propagates out of `run()`. -/
  | failed (idx : Nat) (msg : String) (st : RunState)
  deriving Repr, DecidableEq

/-- The executed index of one loop iteration, if it executed a step. -/
def AutoStepRes.executedIdx : AutoStepRes → Option Nat
  | .finished _ => none
  | .stepped idx _ => some idx
  | .broke idx _ => some idx
  | .held idx _ => some idx
  | .failed idx _ _ => some idx

/-- One iteration of the `while` loop of `runAuto`'s inner `run()`:
check the guard, run the step at the cursor, `break` if the stop flag rose,
skip the auto-increment when the step signalled `"jumped"`. -/
def autoStep (prog : Program) (condVal : Nat → JSVal) (refs : List String)
    (vibrationMode : String) (st : RunState) : AutoStepRes :=
  if st.stepIndex < prog.steps.length && !st.shouldStop then
    let currentIndex := st.stepIndex
    match runStep prog condVal refs vibrationMode currentIndex st with
    | .thrown msg st' => .failed currentIndex msg st'
    | .suspended st' => .held currentIndex st'
    | .jumped st' =>
      if st'.shouldStop then .broke currentIndex st' else .stepped currentIndex st'
    | .normal st' =>
      if st'.shouldStop then .broke currentIndex st'
      else .stepped currentIndex { st' with stepIndex := st'.stepIndex + 1 }
  else .finished st

/-- The initialisation at the top of `run()`: reset the vibration flag, the
cursor and the return-address register. -/
def runInit (st : RunState) : RunState :=
  { st with vibrationTriggered := false, stepIndex := 0, callingStepIndex := none }

/-- `stepIndexRef.current++` followed by the wrap-around check of
`nextStep`. -/
def wrapIncr (prog : Program) (i : Nat) : Nat :=
  if i + 1 ≥ prog.steps.length then 0 else i + 1

/-- How one `nextStep(targetLabel?)` call ends: `ok st executed` gives the
registers once the call (and, on a hold resumption or a hold execution, its
settled continuation) has run, with `executed` the index of the step this
call executed, if any; `thrown` models the raised error. -/
inductive NextRes where
  | ok (st : RunState) (executed : Option Nat)
  | thrown (msg : String) (st : RunState)
  deriving Repr, DecidableEq

/-- The manual-mode `nextStep(targetLabel?)`.  A pending hold was necessarily
parked inside an earlier `nextStep` call awaiting `runStep`; releasing it
lets that call's continuation (`stepIndexRef.current++` with wrap-around) run,
which is folded into the releasing call here, the hook's externally
observable net effect.  Executing a `hold` step parks the increment inside
the `await`, so the cursor is left unmoved and `holdPending` rises. -/
def nextStep (prog : Program) (condVal : Nat → JSVal) (refs : List String)
    (vibrationMode : String) (st₀ : RunState) (targetLabel : Option String) : NextRes :=
  match
    (match targetLabel with
      | none => Sum.inr st₀
      | some s =>
        match prog.labels.lookup s with
        | none => Sum.inl ("[useAnimationScenario] Label '" ++ s ++ "' not found")
        | some targetIndex => Sum.inr { st₀ with stepIndex := targetIndex }) with
  | Sum.inl msg => .thrown msg st₀
  | Sum.inr st =>
    if st.holdPending then
      .ok { st with holdPending := false, stepIndex := wrapIncr prog st.stepIndex } none
    else if !(prog.steps.getD st.stepIndex .vUndef).truthy then .ok st none
    else if st.shouldStop then .ok st none
    else
      match runStep prog condVal refs vibrationMode st.stepIndex st with
      | .thrown msg st' => .thrown msg st'
      | .suspended st' => .ok st' (some st.stepIndex)
      | .normal st' => .ok { st' with stepIndex := wrapIncr prog st'.stepIndex } (some st.stepIndex)
      | .jumped st' => .ok { st' with stepIndex := wrapIncr prog st'.stepIndex } (some st.stepIndex)

/-! ## Specification-side definitions used to state the claims -/

/-- The bracket-matching walk as the specification words it, as a recursion
over the list suffix that starts just past the opening construct: walk
forward tracking the nesting depth of the opening construct; the first
closing construct seen at depth zero is the match, returned as an offset
into the suffix; `none` when there is no match.  Compared against the
source's indexed loop `jumpTo` in the refinement theorem. -/
def matchWalk (startType : String) (endTypes : List String) :
    List JSVal → Nat → Option Nat
  | [], _ => none
  | s :: rest, depth =>
    if s.typeIs startType then
      (matchWalk startType endTypes rest (depth + 1)).map (· + 1)
    else if (endTypes.getLast?).any (fun t => s.typeIs t) && depth > 0 then
      (matchWalk startType endTypes rest (depth - 1)).map (· + 1)
    else if endTypes.any (fun t => s.typeIs t) && depth == 0 then some 0
    else (matchWalk startType endTypes rest depth).map (· + 1)

/-- The specification-side reading of `jumpTo`: the index just past the
matching closing construct found by the depth-tracking walk, or the program
length when no match is found. -/
def jumpToSpec (steps : List JSVal) (startIndex : Nat) (startType : String)
    (endTypes : List String) : Nat :=
  match matchWalk startType endTypes (steps.drop (startIndex + 1)) 0 with
  | some k => startIndex + 1 + k + 1
  | none => steps.length

/-- The valid label names the flatten walk encounters, in walk order —
label steps with a truthy string name, at any nesting, with unknown blocks
skipped (not recursed into) exactly as `flatten` skips them, and the same
fuel accounting. -/
def collectLabelNames (blocks : List (String × List JSVal)) :
    Nat → List JSVal → Option (List String)
  | _, [] => some []
  | 0, _ :: _ => none
  | fuel + 1, step :: rest =>
    if !step.truthy || step.typeOf != "object" then
      collectLabelNames blocks fuel rest
    else if step.typeIs "use" then
      match blocks.lookup (JSVal.jsToString (step.getField "block")) with
      | none => collectLabelNames blocks fuel rest
      | some block =>
        match collectLabelNames blocks fuel block, collectLabelNames blocks fuel rest with
        | some inner, some outer => some (inner ++ outer)
        | _, _ => none
    else if step.typeIs "label" then
      let lbl := step.getField "label"
      if !lbl.truthy || lbl.typeOf != "string" then collectLabelNames blocks fuel rest
      else (collectLabelNames blocks fuel rest).map (JSVal.jsToString lbl :: ·)
    else collectLabelNames blocks fuel rest

/-- The duplicate-label error message. -/
def dupMsg (n : String) : String := "Duplicate label '" ++ n ++ "'"

/-- An entry that fails flatten-time validation with respect to the state
`st` reached just before it: a non-object entry, a label step with a missing
or non-string name, a label step whose (valid) name was already seen, or a
`use` step whose block is not registered. -/
def offendingEntry (blocks : List (String × List JSVal)) (st : CState)
    (step : JSVal) : Prop :=
  (!step.truthy || step.typeOf != "object") = true
  ∨ (step.typeIs "label" = true
      ∧ (!(step.getField "label").truthy
          || (step.getField "label").typeOf != "string") = true)
  ∨ (step.typeIs "label" = true
      ∧ (!(step.getField "label").truthy
          || (step.getField "label").typeOf != "string") = false
      ∧ st.labelSet.contains (JSVal.jsToString (step.getField "label")) = true)
  ∨ (step.typeIs "use" = true
      ∧ blocks.lookup (JSVal.jsToString (step.getField "block")) = none)

/-- The error-independent part of a flatten outcome: the emitted steps, the
label table and the label set. -/
def flattenProj : Option CState → Option (List JSVal × List (String × Nat) × List String) :=
  Option.map (fun st => (st.steps, st.labels, st.labelSet))

/-- The balance-scan state (open frames and errors) after the first `k`
steps. -/
def scanState (steps : List JSVal) (k : Nat) : List IfFrame × List String :=
  ifScanAux (steps.take k) 0 [] []

/-- All errors `compileScenario` accumulates on the flatten outcome `st`:
the flatten-time errors followed by the three passes' errors. -/
def allErrors (initialValues callbacks : List String) (st : CState) : List String :=
  st.validationErrors ++ refErrors initialValues callbacks st.steps
    ++ gotoLabelErrors st.labels st.steps ++ ifBalanceErrors st.steps

/-! ## Concrete inputs used by witnesses and counterexamples -/

/-- The spec's concrete scenario
`[label("start"), comment("fade in"), move("opacity",1,500), label("end")]`,
built with the step helpers. -/
def c8Scenario : List JSVal :=
  [Helpers.label (.vStr "start"), Helpers.comment (.vStr "fade in"),
   Helpers.move (.vStr "opacity") (.vNum 1) (.vNum 500) .vUndef .vUndef (.vBool true),
   Helpers.label (.vStr "end")]

/-- A `parallel` step with no `targets` field at all. -/
def badParallelStep : JSVal := .vObj [("type", .vStr "parallel")]

/-- A `parallel` step with one well-formed `move` target on `"x"`. -/
def parallelOnX : JSVal :=
  .vObj [("type", .vStr "parallel"),
         ("targets", .vArr [.vObj [("type", .vStr "move"), ("target", .vStr "x"),
                                   ("to", .vNum 1), ("duration", .vNum 100)]])]

/-- A compiled program `[goto "L", label "L", resume]`, `labels = {L: 1}`. -/
def gotoResumeProg : Program :=
  { steps := [.vObj [("type", .vStr "goto"), ("label", .vStr "L")],
              .vObj [("type", .vStr "label"), ("label", .vStr "L")],
              .vObj [("type", .vStr "resume")]]
    labels := [("L", 1)] }

/-- A compiled program `[label "a", goto "a"]`, `labels = {a: 0}`. -/
def loopProg : Program :=
  { steps := [.vObj [("type", .vStr "label"), ("label", .vStr "a")],
              .vObj [("type", .vStr "goto"), ("label", .vStr "a")]]
    labels := [("a", 0)] }

/-- A compiled program `[ifThen c, comment, ifElse, comment, ifEnd]`. -/
def condProg : Program :=
  { steps := [.vObj [("type", .vStr "ifThen"), ("condition", .vFun "c")],
              .vObj [("type", .vStr "comment"), ("comment", .vStr "then")],
              .vObj [("type", .vStr "ifElse")],
              .vObj [("type", .vStr "comment"), ("comment", .vStr "else")],
              .vObj [("type", .vStr "ifEnd")]]
    labels := [] }

/-- A fresh run state: cursor 0, empty register, no hold, no vibration, not
stopped. -/
def freshState : RunState :=
  { stepIndex := 0, callingStepIndex := none, holdPending := false
    vibrationTriggered := false, shouldStop := false }

/-- The condition oracle of a program with no resolvable conditions. -/
def noCondOracle : Nat → JSVal := fun _ => (JSVal.vUndef : JSVal)

/-- A step list exercising every branch of the balance scan:
`[ifElse, ifEnd, ifThen, ifElse, ifElse, ifEnd, ifThen]`. -/
def balanceDemoSteps : List JSVal :=
  [.vObj [("type", .vStr "ifElse")],
   .vObj [("type", .vStr "ifEnd")],
   .vObj [("type", .vStr "ifThen"), ("condition", .vFun "c")],
   .vObj [("type", .vStr "ifElse")],
   .vObj [("type", .vStr "ifElse")],
   .vObj [("type", .vStr "ifEnd")],
   .vObj [("type", .vStr "ifThen"), ("condition", .vFun "c")]]

/-- A scenario producing errors in three different passes, twice the same:
`[label "a", label "a", label "a", goto "b", ifEnd]`. -/
def c9Demo : List JSVal :=
  [Helpers.label (.vStr "a"), Helpers.label (.vStr "a"), Helpers.label (.vStr "a"),
   Helpers.goto (.vStr "b"), .vObj [("type", .vStr "ifEnd")]]

/-- The flatten outcome of `c9Demo`. -/
def c9St : CState :=
  { steps := [Helpers.label (.vStr "a"), Helpers.goto (.vStr "b"),
              .vObj [("type", .vStr "ifEnd")]]
    labels := [("a", 0)]
    labelSet := ["a"]
    validationErrors := [dupMsg "a", dupMsg "a"] }

/-- Whether a value is an array. -/
def JSVal.isArr : JSVal → Bool
  | .vArr _ => true
  | _ => false

/-- Invariant of the flatten walk: every `labels` entry points (at its
absolute index) to an emitted top-level label step carrying that name and no
`__sourceBlock` tag, and its name is in the label set. -/
def labelsInv (st : CState) : Prop :=
  ∀ n idx, (n, idx) ∈ st.labels →
    idx < st.steps.length
    ∧ (st.steps.getD idx .vUndef).typeIs "label" = true
    ∧ (st.steps.getD idx .vUndef).getField "label" = .vStr n
    ∧ (st.steps.getD idx .vUndef).getField "__sourceBlock" = .vUndef
    ∧ n ∈ st.labelSet

/-- Invariant of the flatten walk: every emitted label step that carries a
`__sourceBlock` tag has its name in the label set and absent from the keys
of `labels`. -/
def blockLabelsInv (st : CState) : Prop :=
  ∀ i, i < st.steps.length →
    (st.steps.getD i .vUndef).typeIs "label" = true →
    (st.steps.getD i .vUndef).getField "__sourceBlock" ≠ .vUndef →
    ∀ n, (st.steps.getD i .vUndef).getField "label" = .vStr n →
      n ∈ st.labelSet ∧ ∀ p ∈ st.labels, p.1 ≠ n

/-- The scenario of the block-label test: `[label "start", use "moveBlock",
label "end"]`. -/
def c3Scenario : List JSVal :=
  [Helpers.label (.vStr "start"), Helpers.use (.vStr "moveBlock"),
   Helpers.label (.vStr "end")]

/-- The registry of the block-label test. -/
def c3Blocks : List (String × List JSVal) :=
  [("moveBlock", [Helpers.label (.vStr "insideBlock"),
    Helpers.move (.vStr "x") (.vNum 100) (.vNum 500) .vUndef .vUndef (.vBool true)])]

/-- The compiled result of the block-label test. -/
def c3Result : CompileResult :=
  { steps :=
      [Helpers.label (.vStr "start"),
       .vObj [("type", .vStr "label"), ("label", .vStr "insideBlock"),
              ("__sourceBlock", .vStr "moveBlock")],
       .vObj [("type", .vStr "move"), ("target", .vStr "x"), ("to", .vNum 100),
              ("duration", .vNum 500), ("native", .vBool true),
              ("__sourceBlock", .vStr "moveBlock")],
       Helpers.label (.vStr "end")]
    labels := [("start", 0), ("end", 3)]
    validationErrors := [] }

/-! ## Helper lemmas -/

theorem typeIs_iff (v : JSVal) (t : String) :
    v.typeIs t = true ↔ v.getField "type" = .vStr t := by
  cases h : v.getField "type" <;>
    simp [JSVal.typeIs, JSVal.strIs, h]

theorem typeIs_shape {v : JSVal} {t : String} (h : v.typeIs t = true) :
    v.truthy = true ∧ v.typeOf = "object" := by
  have h' := (typeIs_iff v t).mp h
  cases v <;> simp_all [JSVal.getField, JSVal.truthy, JSVal.typeOf]

theorem lookup_mem {α β : Type} [BEq α] [LawfulBEq α] {l : List (α × β)} {k : α} {v : β}
    (h : l.lookup k = some v) : (k, v) ∈ l := by
  induction l with
  | nil => simp [List.lookup] at h
  | cons p rest ih =>
    obtain ⟨k', v'⟩ := p
    by_cases hk : k == k'
    · simp [List.lookup, hk] at h
      subst h
      have : k = k' := by simpa using hk
      subst this
      exact List.mem_cons_self _ _
    · simp only [List.lookup, hk] at h
      simp only [Bool.false_eq_true] at *
      exact List.mem_cons_of_mem _ (ih (by simpa [List.lookup, hk] using h))

theorem lookup_eq_none {α β : Type} [BEq α] [LawfulBEq α] {l : List (α × β)} {k : α}
    (h : ∀ p ∈ l, p.1 ≠ k) : l.lookup k = none := by
  induction l with
  | nil => simp [List.lookup]
  | cons p rest ih =>
    have hne : ¬ (k == p.1) = true := by
      intro hb
      exact h p (List.mem_cons_self _ _) (eq_of_beq hb).symm
    obtain ⟨k', v'⟩ := p
    have hfalse : (k == k') = false := by simpa using hne
    simp only [List.lookup, hfalse]
    exact ih (fun q hq => h q (List.mem_cons_of_mem _ hq))

theorem foldl_append_eq {α β : Type} (l : List α) (f : α → List β) :
    ∀ acc : List β, l.foldl (fun a x => a ++ f x) acc = acc ++ l.flatMap f := by
  induction l with
  | nil => intro acc; simp
  | cons x xs ih => intro acc; simp [ih, List.append_assoc]

theorem ifScanAux_frame :
    ∀ (l : List JSVal) (i : Nat) (stk : List IfFrame) (errs : List String),
      ifScanAux l i stk errs = ((ifScanAux l i stk []).1, errs ++ (ifScanAux l i stk []).2) := by
  intro l
  induction l with
  | nil => intro i stk errs; simp [ifScanAux]
  | cons s rest ih =>
    intro i stk errs
    by_cases h1 : s.typeIs "ifThen"
    · simp only [ifScanAux, h1, if_true]
      exact ih _ _ _
    · by_cases h2 : s.typeIs "ifElse"
      · cases stk with
        | nil =>
          simp only [ifScanAux, h1, h2, if_true, if_false, Bool.false_eq_true]
          rw [ih _ _ (errs ++ [elseNoMatchMsg i]), ih _ _ ([] ++ [elseNoMatchMsg i])]
          simp [List.append_assoc]
        | cons top tail =>
          by_cases h3 : top.hasElse
          · simp only [ifScanAux, h1, h2, h3, if_true, if_false, Bool.false_eq_true]
            rw [ih _ _ (errs ++ [elseReuseMsg i]), ih _ _ ([] ++ [elseReuseMsg i])]
            simp [List.append_assoc]
          · simp only [ifScanAux, h1, h2, h3, if_true, if_false, Bool.false_eq_true]
            exact ih _ _ _
      · by_cases h4 : s.typeIs "ifEnd"
        · cases stk with
          | nil =>
            simp only [ifScanAux, h1, h2, h4, if_true, if_false, Bool.false_eq_true]
            rw [ih _ _ (errs ++ [endNoMatchMsg i]), ih _ _ ([] ++ [endNoMatchMsg i])]
            simp [List.append_assoc]
          | cons top tail =>
            simp only [ifScanAux, h1, h2, h4, if_true, if_false, Bool.false_eq_true]
            exact ih _ _ _
        · simp only [ifScanAux, h1, h2, h4, if_false, Bool.false_eq_true]
          exact ih _ _ _

/-- Singleton `flatMap` is `map`. -/
theorem flatMap_singleton_eq_map {α β : Type} (g : α → β) (l : List α) :
    (l.flatMap fun x => [g x]) = l.map g := by
  induction l with
  | nil => simp
  | cons x xs ih => simp [ih]

/-- The single-accumulator `compileScenario` agrees with the pass-by-pass
decomposition: for either error mode, the accumulated error list is the
concatenation of the flatten-time errors and the three passes' errors,
computed over the whole program. -/
theorem compile_threaded {fuel : Nat} {scenario : List JSVal}
    {blocks : List (String × List JSVal)} {callbacks initialValues : List String}
    {st : CState}
    (hf : flatten blocks fuel scenario none ⟨[], [], [], []⟩ = some st)
    (throughErrors : Bool) :
    compileScenario fuel scenario blocks callbacks initialValues throughErrors
      = some
          (if throughErrors && !(allErrors initialValues callbacks st).isEmpty then
            Except.error (aggregateMsg (allErrors initialValues callbacks st))
          else
            Except.ok
              { steps := st.steps, labels := st.labels
                validationErrors := allErrors initialValues callbacks st }) := by
  simp only [compileScenario, hf]
  rw [foldl_append_eq, foldl_append_eq, ifScanAux_frame, foldl_append_eq]
  simp only [allErrors, refErrors, gotoLabelErrors, ifBalanceErrors,
    flatMap_singleton_eq_map, List.append_assoc]

/-- Non-raising mode: the compiler always returns the flatten output and the
full error list as data. -/
theorem compile_noRaise {fuel : Nat} {scenario : List JSVal}
    {blocks : List (String × List JSVal)} {callbacks initialValues : List String}
    {st : CState}
    (hf : flatten blocks fuel scenario none ⟨[], [], [], []⟩ = some st) :
    compileScenario fuel scenario blocks callbacks initialValues false
      = some (.ok { steps := st.steps, labels := st.labels
                    validationErrors := allErrors initialValues callbacks st }) := by
  simpa using compile_threaded hf false

/-- Raising mode with at least one accumulated error throws the aggregated
message. -/
theorem compile_raise {fuel : Nat} {scenario : List JSVal}
    {blocks : List (String × List JSVal)} {callbacks initialValues : List String}
    {st : CState}
    (hf : flatten blocks fuel scenario none ⟨[], [], [], []⟩ = some st)
    (hne : allErrors initialValues callbacks st ≠ []) :
    compileScenario fuel scenario blocks callbacks initialValues true
      = some (.error (aggregateMsg (allErrors initialValues callbacks st))) := by
  rw [compile_threaded hf true]
  simp [hne]

/-- Inversion: a successful compilation determines the flatten outcome. -/
theorem compile_ok_inv {fuel : Nat} {scenario : List JSVal}
    {blocks : List (String × List JSVal)} {cbs ivs : List String} {te : Bool}
    {r : CompileResult}
    (h : compileScenario fuel scenario blocks cbs ivs te = some (.ok r)) :
    ∃ st, flatten blocks fuel scenario none ⟨[], [], [], []⟩ = some st ∧
      r.steps = st.steps ∧ r.labels = st.labels ∧
      r.validationErrors = allErrors ivs cbs st := by
  cases hf : flatten blocks fuel scenario none ⟨[], [], [], []⟩ with
  | none => simp [compileScenario, hf] at h
  | some st =>
    rw [compile_threaded hf te] at h
    by_cases hc : (te && !(allErrors ivs cbs st).isEmpty) = true
    · simp [hc] at h
    · simp only [Bool.not_eq_true] at hc
      simp [hc] at h
      exact ⟨st, rfl, by simp [← h], by simp [← h], by simp [← h]⟩

/-- The `goto` case of `runStep` with a resolvable label: record the index of
the goto step itself in the return-address register, set the cursor to the
label's index, signal `"jumped"`. -/
theorem runStep_goto {prog : Program} {condVal : Nat → JSVal} {refs : List String}
    {vm : String} {idx : Nat} {st : RunState} {ti : Nat}
    (hty : (prog.steps.getD idx .vUndef).typeIs "goto" = true)
    (hlb : labelIndex prog ((prog.steps.getD idx .vUndef).getField "label") = some ti) :
    runStep prog condVal refs vm idx st
      = .jumped { st with callingStepIndex := some idx, stepIndex := ti } := by
  have h' := (typeIs_iff _ _).mp hty
  simp only [List.getD_eq_getElem?_getD] at h' hlb
  simp [runStep, JSVal.typeIs, JSVal.strIs, h', hlb]

/-- The `resume` case of `runStep` with an occupied register: set the cursor
to the recorded index, clear the register, signal `"jumped"`. -/
theorem runStep_resume {prog : Program} {condVal : Nat → JSVal} {refs : List String}
    {vm : String} {idx : Nat} {st : RunState} {r : Nat}
    (hty : (prog.steps.getD idx .vUndef).typeIs "resume" = true)
    (hreg : st.callingStepIndex = some r) :
    runStep prog condVal refs vm idx st
      = .jumped { st with callingStepIndex := none, stepIndex := r } := by
  have h' := (typeIs_iff _ _).mp hty
  simp only [List.getD_eq_getElem?_getD] at h'
  simp [runStep, JSVal.typeIs, JSVal.strIs, h', hreg]

/-- The `ifThen` case of `runStep` on a condition that resolved to a defined
falsy value: jump past the matching `ifElse`/`ifEnd`. -/
theorem runStep_ifThen_false {prog : Program} {condVal : Nat → JSVal} {refs : List String}
    {vm : String} {idx : Nat} {st : RunState}
    (hty : (prog.steps.getD idx .vUndef).typeIs "ifThen" = true)
    (hc1 : (condVal idx).isUndef = false) (hc2 : (condVal idx).truthy = false) :
    runStep prog condVal refs vm idx st
      = .jumped { st with stepIndex := jumpTo prog.steps idx "ifThen" ["ifElse", "ifEnd"] } := by
  have h' := (typeIs_iff _ _).mp hty
  simp only [List.getD_eq_getElem?_getD] at h'
  simp [runStep, JSVal.typeIs, JSVal.strIs, h', hc1, hc2]

/-- The `ifThen` case of `runStep` on a truthy condition: fall through. -/
theorem runStep_ifThen_true {prog : Program} {condVal : Nat → JSVal} {refs : List String}
    {vm : String} {idx : Nat} {st : RunState}
    (hty : (prog.steps.getD idx .vUndef).typeIs "ifThen" = true)
    (hc2 : (condVal idx).truthy = true) :
    runStep prog condVal refs vm idx st = .normal st := by
  have h' := (typeIs_iff _ _).mp hty
  simp only [List.getD_eq_getElem?_getD] at h'
  simp [runStep, JSVal.typeIs, JSVal.strIs, h', hc2]

/-- The `ifElse` case of `runStep`: unconditionally jump past the matching
`ifEnd`. -/
theorem runStep_ifElse {prog : Program} {condVal : Nat → JSVal} {refs : List String}
    {vm : String} {idx : Nat} {st : RunState}
    (hty : (prog.steps.getD idx .vUndef).typeIs "ifElse" = true) :
    runStep prog condVal refs vm idx st
      = .jumped { st with stepIndex := jumpTo prog.steps idx "ifThen" ["ifEnd"] } := by
  have h' := (typeIs_iff _ _).mp hty
  simp only [List.getD_eq_getElem?_getD] at h'
  simp [runStep, JSVal.typeIs, JSVal.strIs, h']

/-- A successful `matchWalk` stops at a closing construct. -/
theorem matchWalk_close (startType : String) (endTypes : List String) :
    ∀ (l : List JSVal) (depth k : Nat),
      matchWalk startType endTypes l depth = some k →
      ∃ s, l[k]? = some s ∧ endTypes.any (fun t => s.typeIs t) = true := by
  intro l
  induction l with
  | nil => intro depth k h; simp [matchWalk] at h
  | cons s rest ih =>
    intro depth k h
    simp only [matchWalk] at h
    split_ifs at h with h1 h2 h3
    · cases hm : matchWalk startType endTypes rest (depth + 1) with
      | none => rw [hm] at h; simp at h
      | some k' =>
        rw [hm] at h
        simp at h
        obtain ⟨s', hs', ha⟩ := ih (depth + 1) k' hm
        exact ⟨s', by simp [← h, hs'], ha⟩
    · cases hm : matchWalk startType endTypes rest (depth - 1) with
      | none => rw [hm] at h; simp at h
      | some k' =>
        rw [hm] at h
        simp at h
        obtain ⟨s', hs', ha⟩ := ih (depth - 1) k' hm
        exact ⟨s', by simp [← h, hs'], ha⟩
    · simp at h
      subst h
      simp only [Bool.and_eq_true] at h3
      exact ⟨s, by simp, h3.1⟩
    · cases hm : matchWalk startType endTypes rest depth with
      | none => rw [hm] at h; simp at h
      | some k' =>
        rw [hm] at h
        simp at h
        obtain ⟨s', hs', ha⟩ := ih depth k' hm
        exact ⟨s', by simp [← h, hs'], ha⟩

/-- The indexed loop of `jumpTo` agrees with the specification-side
depth-tracking walk over the suffix. -/
theorem jumpToGo_eq_matchWalk (startType : String) (endTypes : List String) :
    ∀ (l : List JSVal) (i depth : Nat),
      jumpToGo startType endTypes l i depth
        = (matchWalk startType endTypes l depth).map (fun k => i + k + 1) := by
  intro l
  induction l with
  | nil => intro i depth; simp [jumpToGo, matchWalk]
  | cons s rest ih =>
    intro i depth
    simp only [jumpToGo, matchWalk]
    split_ifs with h1 h2 h3
    · rw [ih]
      cases matchWalk startType endTypes rest (depth + 1) <;> simp <;> omega
    · rw [ih]
      cases matchWalk startType endTypes rest (depth - 1) <;> simp <;> omega
    · simp
    · rw [ih]
      cases matchWalk startType endTypes rest depth <;> simp <;> omega

/-- `jumpTo` either falls back to the program length or lands one past a
closing construct that stands strictly after the start index. -/
theorem jumpTo_close (steps : List JSVal) (startIndex : Nat) (startType : String)
    (endTypes : List String) :
    jumpTo steps startIndex startType endTypes = steps.length
      ∨ ∃ j, jumpTo steps startIndex startType endTypes = j + 1 ∧ startIndex < j
          ∧ j < steps.length
          ∧ endTypes.any (fun t => (steps.getD j .vUndef).typeIs t) = true := by
  unfold jumpTo
  rw [jumpToGo_eq_matchWalk]
  cases hm : matchWalk startType endTypes (steps.drop (startIndex + 1)) 0 with
  | none => left; simp
  | some k =>
    right
    obtain ⟨s, hs, ha⟩ := matchWalk_close startType endTypes _ 0 k hm
    rw [List.getElem?_drop] at hs
    have hlt : startIndex + 1 + k < steps.length := by
      rcases List.getElem?_eq_some.mp hs with ⟨hl, _⟩
      exact hl
    refine ⟨startIndex + 1 + k, by simp, by omega, hlt, ?_⟩
    have hgd : steps.getD (startIndex + 1 + k) .vUndef = s := by
      simp [List.getD, hs]
    rw [hgd]
    exact ha

/-- The loop form and the specification walk compute the same jump target. -/
theorem jumpTo_eq_spec (steps : List JSVal) (startIndex : Nat) (startType : String)
    (endTypes : List String) :
    jumpTo steps startIndex startType endTypes
      = jumpToSpec steps startIndex startType endTypes := by
  unfold jumpTo jumpToSpec
  rw [jumpToGo_eq_matchWalk]
  cases matchWalk startType endTypes (steps.drop (startIndex + 1)) 0 <;> simp

/-! ## Claim theorems -/

/-- C8: the concrete scenario `[label("start"), comment("fade in"),
move("opacity",1,500), label("end")]` compiles (no validation errors, in
either error mode) to a program of exactly 4 steps whose label table maps
`start` to index 0 and `end` to index 3. -/
theorem claim_c8_concrete_scenario :
    ∃ r : CompileResult,
      compileScenario 10 c8Scenario [] [] ["opacity"] false = some (.ok r)
      ∧ compileScenario 10 c8Scenario [] [] ["opacity"] true = some (.ok r)
      ∧ r.validationErrors = []
      ∧ r.steps.length = 4
      ∧ r.labels = [("start", 0), ("end", 3)] :=
  ⟨_, rfl, rfl, rfl, rfl, rfl⟩

/-- C5 counterexample: a scenario containing a `parallel` step whose
`targets` field is absent altogether (so certainly not a non-empty sequence
of well-formed move-shaped entries) compiles with an empty error list — no
validation error is recorded, contradicting the claim. -/
theorem claim_c5_counterexample :
    compileScenario 1 [badParallelStep] [] [] [] false
      = some (.ok { steps := [badParallelStep], labels := []
                    validationErrors := [] }) := rfl

/-- C5 (amended): `flatten` performs no `parallel`-specific validation — an
object step of type `parallel` is emitted unchanged with no error, whatever
its `targets`; the only `targets`-related errors come from the reference
pass, which reports one missing-initial-value error for each element of an
array `targets` whose `target` is not a key of `initialValues`. -/
theorem claim_c5_parallel_validation :
    (∀ (blocks : List (String × List JSVal)) (fuel : Nat) (step : JSVal)
        (rest : List JSVal) (src : Option JSVal) (st : CState),
      step.typeIs "parallel" = true →
      flatten blocks (fuel + 1) (step :: rest) src st
        = flatten blocks fuel rest src (pushStep st (annotate step src)))
    ∧ (∀ (fuel : Nat) (scenario : List JSVal) (blocks : List (String × List JSVal))
        (cbs ivs : List String) (r : CompileResult) (step : JSVal) (ts : List JSVal)
        (t : JSVal),
      compileScenario fuel scenario blocks cbs ivs false = some (.ok r) →
      step ∈ r.steps →
      (step.getField "target").truthy = false →
      step.getField "targets" = .vArr ts →
      t ∈ ts →
      refHas ivs (t.getField "target") = false →
      ("Missing initial value for target: " ++ JSVal.jsToString (t.getField "target"))
        ∈ r.validationErrors) := by
  constructor
  · intro blocks fuel step rest src st hty
    have h' := (typeIs_iff _ _).mp hty
    obtain ⟨htr, hobj⟩ := typeIs_shape hty
    simp [flatten, JSVal.typeIs, JSVal.strIs, h', htr, hobj]
  · intro fuel scenario blocks cbs ivs r step ts t hc hmem htgt hts ht hrh
    obtain ⟨st, hf, hsteps, hlabels, herrs⟩ := compile_ok_inv hc
    rw [herrs]
    have hmsg : ("Missing initial value for target: "
        ++ JSVal.jsToString (t.getField "target")) ∈ stepRefErrors ivs cbs step := by
      unfold stepRefErrors
      refine List.mem_append_left _ ?_
      rw [if_neg (by simp [htgt]), hts]
      refine List.mem_filterMap.mpr ⟨t.getField "target", List.mem_map_of_mem _ ht, ?_⟩
      simp [hrh]
    have href : ("Missing initial value for target: "
        ++ JSVal.jsToString (t.getField "target")) ∈ refErrors ivs cbs st.steps := by
      unfold refErrors
      exact List.mem_flatMap.mpr ⟨step, hsteps ▸ hmem, hmsg⟩
    unfold allErrors
    exact List.mem_append_left _ (List.mem_append_left _ (List.mem_append_right _ href))

/-- C5 witness for the amended theorem: a `parallel` step with one
well-formed target on `"x"` and no initial value for `"x"` flattens with no
parallel-shape error and gets exactly the reference-pass error. -/
theorem claim_c5_parallel_validation_witness :
    flatten [] 1 [parallelOnX] none ⟨[], [], [], []⟩
      = flatten [] 0 [] none (pushStep ⟨[], [], [], []⟩ parallelOnX)
    ∧ ("Missing initial value for target: x"
        ∈ (match compileScenario 1 [parallelOnX] [] [] [] false with
           | some (.ok r) => r.validationErrors
           | _ => [])) := by
  constructor
  · exact claim_c5_parallel_validation.1 [] 0 parallelOnX [] none ⟨[], [], [], []⟩ (by decide)
  · have h := claim_c5_parallel_validation.2 1 [parallelOnX] [] [] []
      { steps := [parallelOnX], labels := []
        validationErrors := ["Missing initial value for target: x"] }
      parallelOnX
      [.vObj [("type", .vStr "move"), ("target", .vStr "x"),
              ("to", .vNum 1), ("duration", .vNum 100)]]
      (.vObj [("type", .vStr "move"), ("target", .vStr "x"),
              ("to", .vNum 1), ("duration", .vNum 100)])
      rfl (List.mem_singleton.mpr rfl) (by decide) rfl
      (List.mem_singleton.mpr rfl) (by decide)
    exact h

/-- C1 (amended): executing a `goto` step records the index of the goto step
itself — not the index immediately after it — into the single-slot
return-address register and sets the cursor to the label's index, signalling
"jumped"; a later `resume` step sets the cursor to the recorded index and
clears the register, signalling "jumped", so the auto driver's next
iteration re-executes the goto step itself rather than the step immediately
after it. -/
theorem claim_c1_goto_resume :
    (∀ (prog : Program) (condVal : Nat → JSVal) (refs : List String) (vm : String)
        (idx : Nat) (st : RunState) (ti : Nat),
      (prog.steps.getD idx .vUndef).typeIs "goto" = true →
      labelIndex prog ((prog.steps.getD idx .vUndef).getField "label") = some ti →
      runStep prog condVal refs vm idx st
        = .jumped { st with callingStepIndex := some idx, stepIndex := ti })
    ∧ (∀ (prog : Program) (condVal : Nat → JSVal) (refs : List String) (vm : String)
        (idx : Nat) (st : RunState) (r : Nat),
      (prog.steps.getD idx .vUndef).typeIs "resume" = true →
      st.callingStepIndex = some r →
      runStep prog condVal refs vm idx st
        = .jumped { st with callingStepIndex := none, stepIndex := r })
    ∧ (∀ (prog : Program) (condVal : Nat → JSVal) (refs : List String) (vm : String)
        (st : RunState) (r : Nat),
      st.stepIndex < prog.steps.length → st.shouldStop = false →
      (prog.steps.getD st.stepIndex .vUndef).typeIs "resume" = true →
      st.callingStepIndex = some r →
      autoStep prog condVal refs vm st
        = .stepped st.stepIndex { st with callingStepIndex := none, stepIndex := r }
      ∧ (r < prog.steps.length →
          (autoStep prog condVal refs vm
            { st with callingStepIndex := none, stepIndex := r }).executedIdx = some r)) := by
  refine ⟨?_, ?_, ?_⟩
  · intro prog condVal refs vm idx st ti hty hlb
    exact runStep_goto hty hlb
  · intro prog condVal refs vm idx st r hty hreg
    exact runStep_resume hty hreg
  · intro prog condVal refs vm st r hlt hstop hty hreg
    constructor
    · have hg : (st.stepIndex < prog.steps.length && !st.shouldStop) = true := by
        simp [hlt, hstop]
      rw [autoStep, if_pos hg]
      simp only [runStep_resume hty hreg]
      simp [hstop]
    · intro hr
      have hg2 : (({ st with callingStepIndex := none, stepIndex := r } : RunState).stepIndex
          < prog.steps.length
          && !({ st with callingStepIndex := none, stepIndex := r } : RunState).shouldStop)
          = true := by
        simp [hr, hstop]
      rw [autoStep, if_pos hg2]
      cases hrs : runStep prog condVal refs vm
          ({ st with callingStepIndex := none, stepIndex := r } : RunState).stepIndex
          { st with callingStepIndex := none, stepIndex := r } with
      | normal st' =>
        simp only [hrs]
        split <;> simp [AutoStepRes.executedIdx]
      | jumped st' =>
        simp only [hrs]
        split <;> simp [AutoStepRes.executedIdx]
      | suspended st' => simp [hrs, AutoStepRes.executedIdx]
      | thrown msg st' => simp [hrs, AutoStepRes.executedIdx]

/-- C1 witness: on `[goto "L", label "L", resume]` the goto at index 0
stores 0 and jumps to 1; an auto iteration at the resume (index 2, register
0) jumps back to cursor 0 and the next iteration executes index 0. -/
theorem claim_c1_goto_resume_witness :
    runStep gotoResumeProg noCondOracle [] "once" 0 freshState
      = .jumped { stepIndex := 1, callingStepIndex := some 0, holdPending := false
                  vibrationTriggered := false, shouldStop := false }
    ∧ autoStep gotoResumeProg noCondOracle [] "once"
        { stepIndex := 2, callingStepIndex := some 0, holdPending := false
          vibrationTriggered := false, shouldStop := false }
      = .stepped 2 { stepIndex := 0, callingStepIndex := none, holdPending := false
                     vibrationTriggered := false, shouldStop := false }
    ∧ (autoStep gotoResumeProg noCondOracle [] "once"
        { stepIndex := 0, callingStepIndex := none, holdPending := false
          vibrationTriggered := false, shouldStop := false }).executedIdx = some 0 := by
  refine ⟨?_, ?_, ?_⟩
  · exact claim_c1_goto_resume.1 gotoResumeProg noCondOracle [] "once" 0 freshState 1
      (by decide) (by decide)
  · exact (claim_c1_goto_resume.2.2 gotoResumeProg noCondOracle [] "once"
      { stepIndex := 2, callingStepIndex := some 0, holdPending := false
        vibrationTriggered := false, shouldStop := false } 0
      (by decide) rfl (by decide) rfl).1
  · exact (claim_c1_goto_resume.2.2 gotoResumeProg noCondOracle [] "once"
      { stepIndex := 2, callingStepIndex := some 0, holdPending := false
        vibrationTriggered := false, shouldStop := false } 0
      (by decide) rfl (by decide) rfl).2 (by decide)

/-- C1 counterexample: on `[goto "L", label "L", resume]`, executing the
goto at index 0 stores index 0 — not 1, the index immediately after the
goto — in the return-address register, and after the resume runs, the next
auto iteration executes index 0 (the goto itself), not index 1. -/
theorem claim_c1_goto_resume_counterexample :
    (match runStep gotoResumeProg noCondOracle [] "once" 0 freshState with
     | .jumped st => st.callingStepIndex
     | _ => none) = some 0
    ∧ (some 0 ≠ some 1)
    ∧ (match autoStep gotoResumeProg noCondOracle [] "once"
          { stepIndex := 2, callingStepIndex := some 0, holdPending := false
            vibrationTriggered := false, shouldStop := false } with
       | .stepped _ st' => (autoStep gotoResumeProg noCondOracle [] "once" st').executedIdx
       | _ => none) = some 0
    ∧ ((some 0 : Option Nat) ≠ some 1) := by
  refine ⟨by decide, by decide, by decide, by decide⟩

/-- C4: `ifThen` on a condition resolving to a defined falsy value jumps the
cursor to `jumpTo(steps, index, "ifThen", ["ifElse","ifEnd"])`; a truthy
condition falls through; `ifElse` jumps to
`jumpTo(steps, index, "ifThen", ["ifEnd"])`; and `jumpTo` is exactly the
depth-tracking bracket-matching walk: it equals the specification walk
`jumpToSpec`, and it either returns the program length (no match) or lands
one position past a closing construct of the requested kind that stands
strictly after the start index. -/
theorem claim_c4_conditional_jumps :
    (∀ (prog : Program) (condVal : Nat → JSVal) (refs : List String) (vm : String)
        (idx : Nat) (st : RunState),
      (prog.steps.getD idx .vUndef).typeIs "ifThen" = true →
      (condVal idx).isUndef = false →
      (condVal idx).truthy = false →
      runStep prog condVal refs vm idx st
        = .jumped { st with stepIndex := jumpTo prog.steps idx "ifThen" ["ifElse", "ifEnd"] })
    ∧ (∀ (prog : Program) (condVal : Nat → JSVal) (refs : List String) (vm : String)
        (idx : Nat) (st : RunState),
      (prog.steps.getD idx .vUndef).typeIs "ifThen" = true →
      (condVal idx).truthy = true →
      runStep prog condVal refs vm idx st = .normal st)
    ∧ (∀ (prog : Program) (condVal : Nat → JSVal) (refs : List String) (vm : String)
        (idx : Nat) (st : RunState),
      (prog.steps.getD idx .vUndef).typeIs "ifElse" = true →
      runStep prog condVal refs vm idx st
        = .jumped { st with stepIndex := jumpTo prog.steps idx "ifThen" ["ifEnd"] })
    ∧ (∀ (steps : List JSVal) (i : Nat) (t : String) (es : List String),
      jumpTo steps i t es = jumpToSpec steps i t es)
    ∧ (∀ (steps : List JSVal) (i : Nat) (t : String) (es : List String),
      jumpTo steps i t es = steps.length
        ∨ ∃ j, jumpTo steps i t es = j + 1 ∧ i < j ∧ j < steps.length
            ∧ es.any (fun u => (steps.getD j .vUndef).typeIs u) = true) := by
  refine ⟨?_, ?_, ?_, ?_, ?_⟩
  · intro prog condVal refs vm idx st hty hc1 hc2
    exact runStep_ifThen_false hty hc1 hc2
  · intro prog condVal refs vm idx st hty hc2
    exact runStep_ifThen_true hty hc2
  · intro prog condVal refs vm idx st hty
    exact runStep_ifElse hty
  · intro steps i t es
    exact jumpTo_eq_spec steps i t es
  · intro steps i t es
    exact jumpTo_close steps i t es

/-- C4 witness: on `[ifThen c, comment, ifElse, comment, ifEnd]`, a false
condition jumps the cursor to 3 (just past the `ifElse`), a true condition
falls through, and the `ifElse` at index 2 jumps to 5 (just past the
`ifEnd`). -/
theorem claim_c4_conditional_jumps_witness :
    runStep condProg (fun _ => .vBool false) [] "once" 0 freshState
      = .jumped { stepIndex := 3, callingStepIndex := none, holdPending := false
                  vibrationTriggered := false, shouldStop := false }
    ∧ runStep condProg (fun _ => .vBool true) [] "once" 0 freshState = .normal freshState
    ∧ runStep condProg noCondOracle [] "once" 2 freshState
      = .jumped { stepIndex := 5, callingStepIndex := none, holdPending := false
                  vibrationTriggered := false, shouldStop := false }
    ∧ jumpTo condProg.steps 0 "ifThen" ["ifElse", "ifEnd"]
      = jumpToSpec condProg.steps 0 "ifThen" ["ifElse", "ifEnd"] := by
  refine ⟨?_, ?_, ?_, ?_⟩
  · exact (claim_c4_conditional_jumps.1 condProg (fun _ => .vBool false) [] "once" 0
      freshState (by decide) (by decide) (by decide)).trans (by decide)
  · exact claim_c4_conditional_jumps.2.1 condProg (fun _ => .vBool true) [] "once" 0
      freshState (by decide) (by decide)
  · exact (claim_c4_conditional_jumps.2.2.1 condProg noCondOracle [] "once" 2
      freshState (by decide)).trans (by decide)
  · exact claim_c4_conditional_jumps.2.2.2.1 condProg.steps 0 "ifThen" ["ifElse", "ifEnd"]

/-- C7 (amended): `nextStep(label?)` first sets the cursor to the label's
index (raising an error when the label is unknown); if a hold is pending it
releases it and returns without executing a new step — the released
continuation then advances the cursor by one with wrap-around; otherwise it
executes exactly one step at the cursor and then increments the cursor
unconditionally — also when the executed step signalled a jump, the
increment then applying to the jump target — wrapping the cursor to 0 when
it overruns the program length.  A step that suspends on `hold` leaves the
increment parked until the hold is released, and a thrown error propagates
without advancing. -/
theorem claim_c7_nextStep_advance :
    (∀ (prog : Program) (condVal : Nat → JSVal) (refs : List String) (vm : String)
        (st : RunState) (s : String) (ti : Nat),
      prog.labels.lookup s = some ti →
      nextStep prog condVal refs vm st (some s)
        = nextStep prog condVal refs vm { st with stepIndex := ti } none)
    ∧ (∀ (prog : Program) (condVal : Nat → JSVal) (refs : List String) (vm : String)
        (st : RunState) (s : String),
      prog.labels.lookup s = none →
      nextStep prog condVal refs vm st (some s)
        = .thrown ("[useAnimationScenario] Label '" ++ s ++ "' not found") st)
    ∧ (∀ (prog : Program) (condVal : Nat → JSVal) (refs : List String) (vm : String)
        (st : RunState),
      st.holdPending = true →
      nextStep prog condVal refs vm st none
        = .ok { st with holdPending := false, stepIndex := wrapIncr prog st.stepIndex } none)
    ∧ (∀ (prog : Program) (condVal : Nat → JSVal) (refs : List String) (vm : String)
        (st st' : RunState),
      st.holdPending = false →
      (prog.steps.getD st.stepIndex .vUndef).truthy = true →
      st.shouldStop = false →
      runStep prog condVal refs vm st.stepIndex st = .normal st' →
      nextStep prog condVal refs vm st none
        = .ok { st' with stepIndex := wrapIncr prog st'.stepIndex } (some st.stepIndex))
    ∧ (∀ (prog : Program) (condVal : Nat → JSVal) (refs : List String) (vm : String)
        (st st' : RunState),
      st.holdPending = false →
      (prog.steps.getD st.stepIndex .vUndef).truthy = true →
      st.shouldStop = false →
      runStep prog condVal refs vm st.stepIndex st = .jumped st' →
      nextStep prog condVal refs vm st none
        = .ok { st' with stepIndex := wrapIncr prog st'.stepIndex } (some st.stepIndex))
    ∧ (∀ (prog : Program) (condVal : Nat → JSVal) (refs : List String) (vm : String)
        (st st' : RunState),
      st.holdPending = false →
      (prog.steps.getD st.stepIndex .vUndef).truthy = true →
      st.shouldStop = false →
      runStep prog condVal refs vm st.stepIndex st = .suspended st' →
      nextStep prog condVal refs vm st none = .ok st' (some st.stepIndex))
    ∧ (∀ (prog : Program) (condVal : Nat → JSVal) (refs : List String) (vm : String)
        (st st' : RunState) (msg : String),
      st.holdPending = false →
      (prog.steps.getD st.stepIndex .vUndef).truthy = true →
      st.shouldStop = false →
      runStep prog condVal refs vm st.stepIndex st = .thrown msg st' →
      nextStep prog condVal refs vm st none = .thrown msg st') := by
  refine ⟨?_, ?_, ?_, ?_, ?_, ?_, ?_⟩
  · intro prog condVal refs vm st s ti hlk
    simp [nextStep, hlk]
  · intro prog condVal refs vm st s hlk
    simp [nextStep, hlk]
  · intro prog condVal refs vm st hhold
    simp [nextStep, hhold]
  · intro prog condVal refs vm st st' hhold htr hstop hrs
    simp only [List.getD_eq_getElem?_getD] at htr
    simp [nextStep, hhold, htr, hstop, hrs]
  · intro prog condVal refs vm st st' hhold htr hstop hrs
    simp only [List.getD_eq_getElem?_getD] at htr
    simp [nextStep, hhold, htr, hstop, hrs]
  · intro prog condVal refs vm st st' hhold htr hstop hrs
    simp only [List.getD_eq_getElem?_getD] at htr
    simp [nextStep, hhold, htr, hstop, hrs]
  · intro prog condVal refs vm st st' msg hhold htr hstop hrs
    simp only [List.getD_eq_getElem?_getD] at htr
    simp [nextStep, hhold, htr, hstop, hrs]

/-- C7 witness: on `[label "a", goto "a"]` in manual mode, a `nextStep` with
the label argument `"a"` behaves as one at cursor 0; executing the goto at
cursor 1 jumps to 0 and the unconditional increment leaves the cursor at 1;
a pending hold at cursor 0 is released without executing a step, advancing
the cursor to 1. -/
theorem claim_c7_nextStep_advance_witness :
    nextStep loopProg noCondOracle [] "once" freshState (some "a")
      = nextStep loopProg noCondOracle [] "once" freshState none
    ∧ nextStep loopProg noCondOracle [] "once"
        { stepIndex := 1, callingStepIndex := none, holdPending := false
          vibrationTriggered := false, shouldStop := false } none
      = .ok { stepIndex := 1, callingStepIndex := some 1, holdPending := false
              vibrationTriggered := false, shouldStop := false } (some 1)
    ∧ nextStep loopProg noCondOracle [] "once"
        { stepIndex := 0, callingStepIndex := none, holdPending := true
          vibrationTriggered := false, shouldStop := false } none
      = .ok { stepIndex := 1, callingStepIndex := none, holdPending := false
              vibrationTriggered := false, shouldStop := false } none := by
  refine ⟨?_, ?_, ?_⟩
  · exact claim_c7_nextStep_advance.1 loopProg noCondOracle [] "once" freshState "a" 0 (by decide)
  · exact (claim_c7_nextStep_advance.2.2.2.2.1 loopProg noCondOracle [] "once"
      { stepIndex := 1, callingStepIndex := none, holdPending := false
        vibrationTriggered := false, shouldStop := false }
      { stepIndex := 0, callingStepIndex := some 1, holdPending := false
        vibrationTriggered := false, shouldStop := false }
      rfl (by decide) rfl (by decide)).trans (by decide)
  · exact (claim_c7_nextStep_advance.2.2.1 loopProg noCondOracle [] "once"
      { stepIndex := 0, callingStepIndex := none, holdPending := true
        vibrationTriggered := false, shouldStop := false } rfl).trans (by decide)

/-- C7 counterexample: on `[label "a", goto "a"]`, a manual `nextStep` at
cursor 1 executes the goto, which signals "jumped" after setting the cursor
to 0; the claim's auto-mode advancement rule would leave the cursor at 0,
but `nextStep` increments unconditionally and the cursor ends at 1. -/
theorem claim_c7_nextStep_advance_counterexample :
    (match nextStep loopProg noCondOracle [] "once"
        { stepIndex := 1, callingStepIndex := none, holdPending := false
          vibrationTriggered := false, shouldStop := false } none with
     | .ok st _ => st.stepIndex
     | .thrown _ st => st.stepIndex) = 1
    ∧ runStep loopProg noCondOracle [] "once" 1
        { stepIndex := 1, callingStepIndex := none, holdPending := false
          vibrationTriggered := false, shouldStop := false }
      = .jumped { stepIndex := 0, callingStepIndex := some 1, holdPending := false
                  vibrationTriggered := false, shouldStop := false }
    ∧ (1 : Nat) ≠ 0 := by
  refine ⟨by decide, by decide, by decide⟩

/-- Scanning a concatenation scans the first part and continues from its
state, with the index advanced by the first part's length. -/
theorem ifScanAux_append :
    ∀ (l1 l2 : List JSVal) (i : Nat) (stk : List IfFrame) (errs : List String),
      ifScanAux (l1 ++ l2) i stk errs
        = ifScanAux l2 (i + l1.length) (ifScanAux l1 i stk errs).1
            (ifScanAux l1 i stk errs).2 := by
  intro l1
  induction l1 with
  | nil => intro l2 i stk errs; simp [ifScanAux]
  | cons s rest ih =>
    intro l2 i stk errs
    simp only [List.cons_append, ifScanAux, List.append_eq]
    split_ifs with h1 h2 h3
    · rw [ih]
      congr 1
      simp [List.length_cons]
      omega
    · cases stk with
      | nil =>
        dsimp only
        rw [ih]
        congr 1
        simp [List.length_cons]
        omega
      | cons top tail =>
        dsimp only
        by_cases he : top.hasElse = true <;>
          simp only [he, if_true, if_false, Bool.false_eq_true] <;>
          (rw [ih]; congr 1; simp [List.length_cons]; omega)
    · cases stk with
      | nil =>
        dsimp only
        rw [ih]
        congr 1
        simp [List.length_cons]
        omega
      | cons top tail =>
        dsimp only
        rw [ih]
        congr 1
        simp [List.length_cons]
        omega
    · rw [ih]
      congr 1
      simp [List.length_cons]
      omega

/-- One more scanned step: the scan state after `k + 1` steps is the scan
state after `k` steps pushed through the step at index `k`. -/
theorem scanState_succ (steps : List JSVal) (k : Nat) (h : k < steps.length) :
    scanState steps (k + 1)
      = ifScanAux [steps.getD k .vUndef] k (scanState steps k).1 (scanState steps k).2 := by
  unfold scanState
  rw [List.take_succ]
  have hk : steps[k]? = some (steps.getD k .vUndef) := by
    rw [List.getD_eq_getElem?_getD]
    cases hx : steps[k]? with
    | none =>
      exfalso
      rw [List.getElem?_eq_none_iff] at hx
      omega
    | some v => simp
  rw [hk]
  rw [ifScanAux_append]
  congr 1
  simp [List.length_take]
  omega

/-- Errors present in the scan state after `k` steps are in the balance
pass's output. -/
theorem scanState_errs_le (steps : List JSVal) (k : Nat) :
    ∀ e ∈ (scanState steps k).2, e ∈ ifBalanceErrors steps := by
  intro e he
  unfold ifBalanceErrors
  have hsplit : ifScanAux steps 0 [] []
      = ifScanAux (steps.drop k) (0 + (steps.take k).length) (scanState steps k).1
          (scanState steps k).2 := by
    conv_lhs => rw [← List.take_append_drop k steps]
    exact ifScanAux_append (steps.take k) (steps.drop k) 0 [] []
  rw [hsplit, ifScanAux_frame]
  exact List.mem_append_left _ (List.mem_append_left _ he)

/-- C6: the conditional-block balance pass reports, for every flattened step
list, an error for each `ifElse` reached with no open `ifThen` frame, an
error for each further `ifElse` on a frame that already has one (else
reuse), an error for each `ifEnd` reached with no open frame, and an
unclosed-`ifThen` error at the opening index of every frame still open at
the end of the scan; an `ifEnd` reached with a non-empty stack pops exactly
the top frame. -/
theorem claim_c6_balance_scan :
    (∀ (steps : List JSVal) (k : Nat), k < steps.length →
      (steps.getD k .vUndef).typeIs "ifElse" = true →
      (scanState steps k).1 = [] →
      elseNoMatchMsg k ∈ ifBalanceErrors steps)
    ∧ (∀ (steps : List JSVal) (k : Nat) (f : IfFrame) (t : List IfFrame),
      k < steps.length →
      (steps.getD k .vUndef).typeIs "ifElse" = true →
      (scanState steps k).1 = f :: t →
      f.hasElse = true →
      elseReuseMsg k ∈ ifBalanceErrors steps)
    ∧ (∀ (steps : List JSVal) (k : Nat), k < steps.length →
      (steps.getD k .vUndef).typeIs "ifEnd" = true →
      (scanState steps k).1 = [] →
      endNoMatchMsg k ∈ ifBalanceErrors steps)
    ∧ (∀ (steps : List JSVal) (k : Nat) (f : IfFrame) (t : List IfFrame),
      k < steps.length →
      (steps.getD k .vUndef).typeIs "ifEnd" = true →
      (scanState steps k).1 = f :: t →
      (scanState steps (k + 1)).1 = t)
    ∧ (∀ (steps : List JSVal) (f : IfFrame),
      f ∈ (ifScanAux steps 0 [] []).1 →
      unclosedMsg f.index ∈ ifBalanceErrors steps) := by
  refine ⟨?_, ?_, ?_, ?_, ?_⟩
  · intro steps k hk hty hstk
    have h' := (typeIs_iff _ _).mp hty
    apply scanState_errs_le steps (k + 1)
    rw [scanState_succ steps k hk, hstk]
    simp only [List.getD_eq_getElem?_getD] at h'
    simp [ifScanAux, JSVal.typeIs, JSVal.strIs, h']
  · intro steps k f t hk hty hstk he
    have h' := (typeIs_iff _ _).mp hty
    apply scanState_errs_le steps (k + 1)
    rw [scanState_succ steps k hk, hstk]
    simp only [List.getD_eq_getElem?_getD] at h'
    simp [ifScanAux, JSVal.typeIs, JSVal.strIs, h', he]
  · intro steps k hk hty hstk
    have h' := (typeIs_iff _ _).mp hty
    apply scanState_errs_le steps (k + 1)
    rw [scanState_succ steps k hk, hstk]
    simp only [List.getD_eq_getElem?_getD] at h'
    simp [ifScanAux, JSVal.typeIs, JSVal.strIs, h']
  · intro steps k f t hk hty hstk
    have h' := (typeIs_iff _ _).mp hty
    rw [scanState_succ steps k hk, hstk]
    simp only [List.getD_eq_getElem?_getD] at h'
    simp [ifScanAux, JSVal.typeIs, JSVal.strIs, h']
  · intro steps f hf
    unfold ifBalanceErrors
    refine List.mem_append_right _ ?_
    exact List.mem_map_of_mem _ (List.mem_reverse.mpr hf)

/-- C6 witness: on `[ifElse, ifEnd, ifThen, ifElse, ifElse, ifEnd, ifThen]`
the pass reports the unmatched `ifElse` at 0, the unmatched `ifEnd` at 1,
the else reuse at 4 and the unclosed `ifThen` at 6, and the `ifEnd` at 5
pops the frame opened at 2. -/
theorem claim_c6_balance_scan_witness :
    elseNoMatchMsg 0 ∈ ifBalanceErrors balanceDemoSteps
    ∧ endNoMatchMsg 1 ∈ ifBalanceErrors balanceDemoSteps
    ∧ elseReuseMsg 4 ∈ ifBalanceErrors balanceDemoSteps
    ∧ (scanState balanceDemoSteps 6).1 = []
    ∧ unclosedMsg 6 ∈ ifBalanceErrors balanceDemoSteps := by
  refine ⟨?_, ?_, ?_, ?_, ?_⟩
  · exact claim_c6_balance_scan.1 balanceDemoSteps 0 (by decide) (by decide) (by decide)
  · exact claim_c6_balance_scan.2.2.1 balanceDemoSteps 1 (by decide) (by decide) (by decide)
  · exact claim_c6_balance_scan.2.1 balanceDemoSteps 4 ⟨2, true⟩ [] (by decide) (by decide)
      (by decide) (by decide)
  · exact claim_c6_balance_scan.2.2.2.1 balanceDemoSteps 5 ⟨2, true⟩ [] (by decide)
      (by decide) (by decide)
  · exact claim_c6_balance_scan.2.2.2.2 balanceDemoSteps ⟨6, false⟩ (by decide)

/-- Membership in the first-occurrence de-duplication. -/
theorem dedupFirstAux_mem :
    ∀ (l seen : List String) (x : String),
      x ∈ dedupFirstAux seen l ↔ x ∈ l ∧ x ∉ seen := by
  intro l
  induction l with
  | nil => intro seen x; simp [dedupFirstAux]
  | cons y ys ih =>
    intro seen x
    by_cases hy : seen.contains y
    · rw [dedupFirstAux, if_pos hy, ih]
      constructor
      · exact fun ⟨h1, h2⟩ => ⟨List.mem_cons_of_mem _ h1, h2⟩
      · rintro ⟨h1, h2⟩
        rcases List.mem_cons.mp h1 with rfl | h1
        · exact absurd (by simpa using hy : x ∈ seen) h2
        · exact ⟨h1, h2⟩
    · rw [dedupFirstAux, if_neg hy]
      constructor
      · intro hm
        rcases List.mem_cons.mp hm with rfl | hm
        · exact ⟨List.mem_cons_self _ _, fun hc =>
            hy (by simpa using hc)⟩
        · have := (ih (y :: seen) x).mp hm
          exact ⟨List.mem_cons_of_mem _ this.1,
            fun hc => this.2 (List.mem_cons_of_mem _ hc)⟩
      · rintro ⟨h1, h2⟩
        rcases List.mem_cons.mp h1 with rfl | h1
        · exact List.mem_cons_self _ _
        · by_cases hxy : x = y
          · subst hxy; exact List.mem_cons_self _ _
          · exact List.mem_cons_of_mem _ ((ih (y :: seen) x).mpr
              ⟨h1, fun hc => (List.mem_cons.mp hc).elim hxy h2⟩)

/-- The first-occurrence de-duplication has no duplicates. -/
theorem dedupFirstAux_nodup :
    ∀ (l seen : List String), (dedupFirstAux seen l).Nodup := by
  intro l
  induction l with
  | nil => intro seen; simp [dedupFirstAux]
  | cons y ys ih =>
    intro seen
    by_cases hy : seen.contains y
    · rw [dedupFirstAux, if_pos hy]; exact ih seen
    · rw [dedupFirstAux, if_neg hy]
      refine List.nodup_cons.mpr ⟨?_, ih (y :: seen)⟩
      intro hmem
      exact ((dedupFirstAux_mem ys (y :: seen) y).mp hmem).2 (List.mem_cons_self _ _)

/-- C9: compilation never stops at the first error — the error list of the
returned (or raised) result is the concatenation of the flatten-time errors
and the errors of the reference, label-existence and balance passes, each
computed over the whole flattened program; in non-raising mode the full list
is returned as data alongside the partial program, and in raising mode one
aggregated failure, built from the first-occurrence de-duplication of that
list, is raised only after all passes have run (no errors: the same result
as non-raising mode). -/
theorem claim_c9_error_accumulation :
    ∀ (fuel : Nat) (scenario : List JSVal) (blocks : List (String × List JSVal))
      (cbs ivs : List String) (st : CState),
      flatten blocks fuel scenario none ⟨[], [], [], []⟩ = some st →
      compileScenario fuel scenario blocks cbs ivs false
          = some (.ok { steps := st.steps, labels := st.labels
                        validationErrors := allErrors ivs cbs st })
      ∧ allErrors ivs cbs st
          = st.validationErrors ++ refErrors ivs cbs st.steps
              ++ gotoLabelErrors st.labels st.steps ++ ifBalanceErrors st.steps
      ∧ (allErrors ivs cbs st = [] →
          compileScenario fuel scenario blocks cbs ivs true
            = some (.ok { steps := st.steps, labels := st.labels
                          validationErrors := allErrors ivs cbs st }))
      ∧ (allErrors ivs cbs st ≠ [] →
          compileScenario fuel scenario blocks cbs ivs true
            = some (.error (aggregateMsg (allErrors ivs cbs st))))
      ∧ (dedupFirst (allErrors ivs cbs st)).Nodup
      ∧ (∀ m, m ∈ dedupFirst (allErrors ivs cbs st) ↔ m ∈ allErrors ivs cbs st) := by
  intro fuel scenario blocks cbs ivs st hf
  refine ⟨compile_noRaise hf, rfl, ?_, compile_raise hf, dedupFirstAux_nodup _ [], ?_⟩
  · intro he
    rw [compile_threaded hf true]
    simp [he]
  · intro m
    rw [dedupFirst, dedupFirstAux_mem]
    simp

/-- C9 witness: on `[label "a", label "a", label "a", goto "b", ifEnd]` the
flatten pass contributes two duplicate-label errors, the label pass a
missing-label error and the balance pass an unmatched-`ifEnd` error, all
present at once; raising mode throws the de-duplicated aggregate. -/
theorem claim_c9_error_accumulation_witness :
    compileScenario 9 c9Demo [] [] [] false
      = some (.ok { steps := c9St.steps, labels := c9St.labels
                    validationErrors := allErrors [] [] c9St })
    ∧ allErrors [] [] c9St
      = [dupMsg "a", dupMsg "a", "Missing label : b", endNoMatchMsg 2]
    ∧ compileScenario 9 c9Demo [] [] [] true
      = some (.error (aggregateMsg (allErrors [] [] c9St)))
    ∧ (dedupFirst (allErrors [] [] c9St)).Nodup
    ∧ dedupFirst (allErrors [] [] c9St)
      = [dupMsg "a", "Missing label : b", endNoMatchMsg 2] := by
  have h := claim_c9_error_accumulation 9 c9Demo [] [] [] c9St rfl
  exact ⟨h.1, rfl, h.2.2.2.1 (by decide), h.2.2.2.2.1, rfl⟩

/-- The emitted steps, labels and label set of a flatten run do not depend
on the errors already accumulated. -/
theorem flattenProj_congr (blocks : List (String × List JSVal)) :
    ∀ (fuel : Nat) (input : List JSVal) (src : Option JSVal) (s₁ s₂ : CState),
      s₁.steps = s₂.steps → s₁.labels = s₂.labels → s₁.labelSet = s₂.labelSet →
      flattenProj (flatten blocks fuel input src s₁)
        = flattenProj (flatten blocks fuel input src s₂) := by
  intro fuel
  induction fuel with
  | zero =>
    intro input src s₁ s₂ h1 h2 h3
    cases input with
    | nil => simp [flatten, flattenProj, h1, h2, h3]
    | cons e rest => simp [flatten, flattenProj]
  | succ fuel ih =>
    intro input src s₁ s₂ h1 h2 h3
    cases input with
    | nil => simp [flatten, flattenProj, h1, h2, h3]
    | cons step rest =>
      by_cases hg : (!step.truthy || step.typeOf != "object") = true
      · simp only [flatten, hg, if_true]
        exact ih rest src _ _ (by simp [pushErr, h1]) (by simp [pushErr, h2])
          (by simp [pushErr, h3])
      · simp only [flatten, hg, Bool.false_eq_true, if_false]
        by_cases hu : step.typeIs "use" = true
        · simp only [hu, if_true]
          cases hb : blocks.lookup (JSVal.jsToString (step.getField "block")) with
          | none =>
            exact ih rest src _ _ (by simp [pushErr, h1]) (by simp [pushErr, h2])
              (by simp [pushErr, h3])
          | some block =>
            dsimp only
            have hp := ih block (some (step.getField "block")) s₁ s₂ h1 h2 h3
            cases hb1 : flatten blocks fuel block (some (step.getField "block")) s₁ with
            | none =>
              cases hb2 : flatten blocks fuel block (some (step.getField "block")) s₂ with
              | none => rfl
              | some t2 => rw [hb1, hb2] at hp; simp [flattenProj] at hp
            | some t1 =>
              cases hb2 : flatten blocks fuel block (some (step.getField "block")) s₂ with
              | none => rw [hb1, hb2] at hp; simp [flattenProj] at hp
              | some t2 =>
                rw [hb1, hb2] at hp
                simp only [flattenProj, Option.map_some', Option.some.injEq,
                  Prod.mk.injEq] at hp
                exact ih rest src t1 t2 hp.1 hp.2.1 hp.2.2
        · simp only [hu, Bool.false_eq_true, if_false]
          by_cases hl : step.typeIs "label" = true
          · simp only [hl, if_true]
            by_cases hbn : (!(step.getField "label").truthy
                || (step.getField "label").typeOf != "string") = true
            · simp only [hbn, if_true]
              exact ih rest src _ _ (by simp [pushErr, h1]) (by simp [pushErr, h2])
                (by simp [pushErr, h3])
            · simp only [hbn, Bool.false_eq_true, if_false]
              by_cases hdup :
                  s₁.labelSet.contains (JSVal.jsToString (step.getField "label")) = true
              · have hdup2 :
                    s₂.labelSet.contains (JSVal.jsToString (step.getField "label")) = true := by
                  rw [← h3]; exact hdup
                simp only [hdup, hdup2, if_true]
                exact ih rest src _ _ (by simp [pushErr, h1]) (by simp [pushErr, h2])
                  (by simp [pushErr, h3])
              · have hdup2 :
                    s₂.labelSet.contains (JSVal.jsToString (step.getField "label")) = false := by
                  rw [← h3]; simpa using hdup
                simp only [hdup, hdup2, Bool.false_eq_true, if_false]
                refine ih rest src _ _ ?_ ?_ ?_
                · simp [pushStep, h1]
                · simp [pushStep, h1, h2]
                · simp [pushStep, h3]
          · simp only [hl, Bool.false_eq_true, if_false]
            by_cases hij : step.typeIs "ifJump" = true
            · simp only [hij, if_true]
              exact ih rest src _ _ (by simp [pushStep, h1]) (by simp [pushStep, h2])
                (by simp [pushStep, h3])
            · simp only [hij, Bool.false_eq_true, if_false]
              exact ih rest src _ _ (by simp [pushStep, h1]) (by simp [pushStep, h2])
                (by simp [pushStep, h3])

/-- C10: an entry that fails flatten-time validation — a non-object entry, a
label step with a missing or non-string name, a label step whose name
duplicates one already seen, or a `use` step referencing an unknown block —
contributes exactly one error and is omitted from the emitted steps
entirely, so the steps, labels and label set are computed as if the
offending entry were absent. -/
theorem claim_c10_invalid_entries_skipped :
    ∀ (blocks : List (String × List JSVal)) (fuel : Nat) (step : JSVal)
      (rest : List JSVal) (src : Option JSVal) (st : CState),
      offendingEntry blocks st step →
      (∃ msg, flatten blocks (fuel + 1) (step :: rest) src st
          = flatten blocks fuel rest src (pushErr st msg))
      ∧ flattenProj (flatten blocks (fuel + 1) (step :: rest) src st)
          = flattenProj (flatten blocks fuel rest src st) := by
  intro blocks fuel step rest src st hoff
  suffices h : ∃ msg, flatten blocks (fuel + 1) (step :: rest) src st
      = flatten blocks fuel rest src (pushErr st msg) by
    obtain ⟨msg, he⟩ := h
    refine ⟨⟨msg, he⟩, ?_⟩
    rw [he]
    exact flattenProj_congr blocks fuel rest src _ _ (by simp [pushErr])
      (by simp [pushErr]) (by simp [pushErr])
  rcases hoff with hinv | ⟨hl, hbn⟩ | ⟨hl, hbn, hdup⟩ | ⟨hu, hlk⟩
  · refine ⟨"Invalid step in scenario : " ++ stringifyTpl step, ?_⟩
    simp only [flatten, hinv, if_true]
  · have h' := (typeIs_iff _ _).mp hl
    obtain ⟨ht, hobj⟩ := typeIs_shape hl
    refine ⟨"Label must have a string name: " ++ stringifyTpl step, ?_⟩
    simp [flatten, JSVal.typeIs, JSVal.strIs, h', ht, hobj, hbn]
  · have h' := (typeIs_iff _ _).mp hl
    obtain ⟨ht, hobj⟩ := typeIs_shape hl
    refine ⟨"Duplicate label '" ++ JSVal.jsToString (step.getField "label") ++ "'", ?_⟩
    simp only [flatten, JSVal.typeIs, JSVal.strIs, h', ht, hobj, hbn, hdup]
    simp [hdup]
  · have h' := (typeIs_iff _ _).mp hu
    obtain ⟨ht, hobj⟩ := typeIs_shape hu
    refine ⟨"Block '" ++ JSVal.jsToString (step.getField "block") ++ "' not found", ?_⟩
    simp [flatten, JSVal.typeIs, JSVal.strIs, h', ht, hobj, hlk]

/-- C10 witness: a non-object entry (`5`) and a duplicate label are each
skipped — one error, and the same steps, labels and label set as the
scenario without the entry. -/
theorem claim_c10_invalid_entries_skipped_witness :
    ((∃ msg, flatten [] 2 [.vNum 5, Helpers.label (.vStr "b")] none ⟨[], [], [], []⟩
        = flatten [] 1 [Helpers.label (.vStr "b")] none (pushErr ⟨[], [], [], []⟩ msg))
      ∧ flattenProj (flatten [] 2 [.vNum 5, Helpers.label (.vStr "b")] none ⟨[], [], [], []⟩)
        = flattenProj (flatten [] 1 [Helpers.label (.vStr "b")] none ⟨[], [], [], []⟩))
    ∧ ((∃ msg, flatten [] 2 [Helpers.label (.vStr "a"), Helpers.label (.vStr "b")] none
            ⟨[Helpers.label (.vStr "a")], [("a", 0)], ["a"], []⟩
        = flatten [] 1 [Helpers.label (.vStr "b")] none
            (pushErr ⟨[Helpers.label (.vStr "a")], [("a", 0)], ["a"], []⟩ msg))
      ∧ flattenProj (flatten [] 2 [Helpers.label (.vStr "a"), Helpers.label (.vStr "b")] none
            ⟨[Helpers.label (.vStr "a")], [("a", 0)], ["a"], []⟩)
        = flattenProj (flatten [] 1 [Helpers.label (.vStr "b")] none
            ⟨[Helpers.label (.vStr "a")], [("a", 0)], ["a"], []⟩)) :=
  ⟨claim_c10_invalid_entries_skipped [] 1 (.vNum 5) [Helpers.label (.vStr "b")] none
      ⟨[], [], [], []⟩ (Or.inl (by decide)),
   claim_c10_invalid_entries_skipped [] 1 (Helpers.label (.vStr "a"))
      [Helpers.label (.vStr "b")] none
      ⟨[Helpers.label (.vStr "a")], [("a", 0)], ["a"], []⟩
      (Or.inr (Or.inr (Or.inl ⟨by decide, by decide, by decide⟩)))⟩

/-- The flatten walk against the collected label names: the walk's label set
absorbs every collected name, errors only grow, and a name collected twice —
or collected while already in the incoming label set — produces the
duplicate-label error. -/
theorem flatten_collect (blocks : List (String × List JSVal)) :
    ∀ (fuel : Nat) (input : List JSVal) (src : Option JSVal) (st st' : CState),
      flatten blocks fuel input src st = some st' →
      ∃ names, collectLabelNames blocks fuel input = some names
        ∧ st.validationErrors <+: st'.validationErrors
        ∧ (∀ n, n ∈ st.labelSet → n ∈ st'.labelSet)
        ∧ (∀ n, n ∈ names → n ∈ st'.labelSet)
        ∧ (∀ n, n ∈ st.labelSet → n ∈ names → dupMsg n ∈ st'.validationErrors)
        ∧ (∀ n, 2 ≤ names.count n → dupMsg n ∈ st'.validationErrors) := by
  intro fuel
  induction fuel with
  | zero =>
    intro input src st st' hf
    cases input with
    | nil =>
      simp only [flatten, Option.some.injEq] at hf
      subst hf
      exact ⟨[], rfl, List.prefix_refl _, fun n h => h, by simp, by simp, by simp⟩
    | cons e rest => simp [flatten] at hf
  | succ fuel ih =>
    intro input src st st' hf
    cases input with
    | nil =>
      simp only [flatten, Option.some.injEq] at hf
      subst hf
      exact ⟨[], rfl, List.prefix_refl _, fun n h => h, by simp, by simp, by simp⟩
    | cons step rest =>
      by_cases hg : (!step.truthy || step.typeOf != "object") = true
      · simp only [flatten, hg, if_true] at hf
        obtain ⟨names, hcol, hpre, hmono, hnames, hd5, hd6⟩ := ih rest src _ st' hf
        refine ⟨names, ?_, ?_, ?_, hnames, ?_, hd6⟩
        · simp only [collectLabelNames, hg, if_true]
          exact hcol
        · exact (List.prefix_append _ _).trans (by simpa [pushErr] using hpre)
        · exact fun n h => hmono n (by simpa [pushErr] using h)
        · exact fun n h1 h2 => hd5 n (by simpa [pushErr] using h1) h2
      · by_cases hu : step.typeIs "use" = true
        · cases hb : blocks.lookup (JSVal.jsToString (step.getField "block")) with
          | none =>
            simp only [flatten, hg, Bool.false_eq_true, if_false, hu, if_true, hb] at hf
            obtain ⟨names, hcol, hpre, hmono, hnames, hd5, hd6⟩ := ih rest src _ st' hf
            refine ⟨names, ?_, ?_, ?_, hnames, ?_, hd6⟩
            · simp only [collectLabelNames, hg, Bool.false_eq_true, if_false, hu, if_true, hb]
              exact hcol
            · exact (List.prefix_append _ _).trans (by simpa [pushErr] using hpre)
            · exact fun n h => hmono n (by simpa [pushErr] using h)
            · exact fun n h1 h2 => hd5 n (by simpa [pushErr] using h1) h2
          | some block =>
            simp only [flatten, hg, Bool.false_eq_true, if_false, hu, if_true, hb] at hf
            cases hb1 : flatten blocks fuel block (some (step.getField "block")) st with
            | none => rw [hb1] at hf; simp at hf
            | some st₁ =>
              rw [hb1] at hf
              simp only at hf
              obtain ⟨inner, hcol1, hpre1, hmono1, hnames1, hd51, hd61⟩ :=
                ih block (some (step.getField "block")) st st₁ hb1
              obtain ⟨outer, hcol2, hpre2, hmono2, hnames2, hd52, hd62⟩ :=
                ih rest src st₁ st' hf
              refine ⟨inner ++ outer, ?_, hpre1.trans hpre2, ?_, ?_, ?_, ?_⟩
              · simp only [collectLabelNames, hg, Bool.false_eq_true, if_false, hu,
                  if_true, hb, hcol1, hcol2]
              · exact fun n h => hmono2 n (hmono1 n h)
              · intro n hn
                rcases List.mem_append.mp hn with h | h
                · exact hmono2 n (hnames1 n h)
                · exact hnames2 n h
              · intro n h1 h2
                rcases List.mem_append.mp h2 with h | h
                · exact hpre2.subset (hd51 n h1 h)
                · exact hd52 n (hmono1 n h1) h
              · intro n hc
                rw [List.count_append] at hc
                by_cases hc1 : 2 ≤ inner.count n
                · exact hpre2.subset (hd61 n hc1)
                · by_cases hc2 : 2 ≤ outer.count n
                  · exact hd62 n hc2
                  · have hi1 : 1 ≤ inner.count n := by omega
                    have hi2 : 1 ≤ outer.count n := by omega
                    have hmem1 : n ∈ inner := List.count_pos_iff_mem.mp hi1
                    have hmem2 : n ∈ outer := List.count_pos_iff_mem.mp hi2
                    exact hd52 n (hnames1 n hmem1) hmem2
        · by_cases hl : step.typeIs "label" = true
          · by_cases hbn : (!(step.getField "label").truthy
                || (step.getField "label").typeOf != "string") = true
            · simp only [flatten, hg, Bool.false_eq_true, if_false, hu, hl, if_true,
                hbn] at hf
              obtain ⟨names, hcol, hpre, hmono, hnames, hd5, hd6⟩ := ih rest src _ st' hf
              refine ⟨names, ?_, ?_, ?_, hnames, ?_, hd6⟩
              · simp only [collectLabelNames, hg, Bool.false_eq_true, if_false, hu, hl,
                  if_true, hbn]
                exact hcol
              · exact (List.prefix_append _ _).trans (by simpa [pushErr] using hpre)
              · exact fun n h => hmono n (by simpa [pushErr] using h)
              · exact fun n h1 h2 => hd5 n (by simpa [pushErr] using h1) h2
            · by_cases hdup :
                  st.labelSet.contains (JSVal.jsToString (step.getField "label")) = true
              · simp only [flatten, hg, Bool.false_eq_true, if_false, hu, hl, if_true,
                  hbn, hdup] at hf
                obtain ⟨names, hcol, hpre, hmono, hnames, hd5, hd6⟩ := ih rest src _ st' hf
                have hdmem : JSVal.jsToString (step.getField "label") ∈ st.labelSet := by
                  simpa using hdup
                refine ⟨JSVal.jsToString (step.getField "label") :: names, ?_, ?_, ?_, ?_, ?_, ?_⟩
                · simp only [collectLabelNames, hg, Bool.false_eq_true, if_false, hu, hl,
                    if_true, hbn, hcol, Option.map_some']
                · exact (List.prefix_append _ _).trans (by simpa [pushErr] using hpre)
                · exact fun n h => hmono n (by simpa [pushErr] using h)
                · intro n hn
                  rcases List.mem_cons.mp hn with rfl | hn
                  · exact hmono _ (by simpa [pushErr] using hdmem)
                  · exact hnames n hn
                · intro n h1 h2
                  rcases List.mem_cons.mp h2 with rfl | h2
                  · refine hpre.subset ?_
                    simp [pushErr, dupMsg]
                  · exact hd5 n (by simpa [pushErr] using h1) h2
                · intro n hc
                  by_cases hne : n = JSVal.jsToString (step.getField "label")
                  · rw [hne]
                    refine hpre.subset ?_
                    simp [pushErr, dupMsg]
                  · rw [List.count_cons_of_ne hne] at hc
                    exact hd6 n hc
              · simp only [flatten, hg, Bool.false_eq_true, if_false, hu, hl, if_true,
                  hbn, hdup] at hf
                obtain ⟨names, hcol, hpre, hmono, hnames, hd5, hd6⟩ := ih rest src _ st' hf
                have hndmem : JSVal.jsToString (step.getField "label") ∉ st.labelSet := by
                  simpa using hdup
                refine ⟨JSVal.jsToString (step.getField "label") :: names, ?_, ?_, ?_, ?_, ?_, ?_⟩
                · simp only [collectLabelNames, hg, Bool.false_eq_true, if_false, hu, hl,
                    if_true, hbn, hcol, Option.map_some']
                · exact by simpa [pushStep] using hpre
                · intro n h
                  exact hmono n (by simp [pushStep]; exact Or.inr h)
                · intro n hn
                  rcases List.mem_cons.mp hn with rfl | hn
                  · exact hmono _ (by simp [pushStep])
                  · exact hnames n hn
                · intro n h1 h2
                  rcases List.mem_cons.mp h2 with rfl | h2
                  · exact absurd h1 hndmem
                  · exact hd5 n (by simp [pushStep]; exact Or.inr h1) h2
                · intro n hc
                  by_cases hne : n = JSVal.jsToString (step.getField "label")
                  · rw [hne, List.count_cons_self] at hc
                    have h1c : 1 ≤ names.count (JSVal.jsToString (step.getField "label")) := by
                      omega
                    have hmem := List.count_pos_iff_mem.mp h1c
                    rw [hne]
                    exact hd5 _ (by simp [pushStep]) hmem
                  · rw [List.count_cons_of_ne hne] at hc
                    exact hd6 n hc
          · by_cases hj : step.typeIs "ifJump" = true
            · simp only [flatten, hg, Bool.false_eq_true, if_false, hu, hl, hj,
                if_true] at hf
              obtain ⟨names, hcol, hpre, hmono, hnames, hd5, hd6⟩ := ih rest src _ st' hf
              refine ⟨names, ?_, ?_, ?_, hnames, ?_, hd6⟩
              · simp only [collectLabelNames, hg, Bool.false_eq_true, if_false, hu, hl,
                  hj, if_true]
                exact hcol
              · exact (List.prefix_append _ _).trans (by simpa [pushStep] using hpre)
              · exact fun n h => hmono n (by simpa [pushStep] using h)
              · exact fun n h1 h2 => hd5 n (by simpa [pushStep] using h1) h2
            · simp only [flatten, hg, Bool.false_eq_true, if_false, hu, hl, hj] at hf
              obtain ⟨names, hcol, hpre, hmono, hnames, hd5, hd6⟩ := ih rest src _ st' hf
              refine ⟨names, ?_, ?_, ?_, hnames, ?_, hd6⟩
              · simp only [collectLabelNames, hg, Bool.false_eq_true, if_false, hu, hl, hj]
                exact hcol
              · exact by simpa [pushStep] using hpre
              · exact fun n h => hmono n (by simpa [pushStep] using h)
              · exact fun n h1 h2 => hd5 n (by simpa [pushStep] using h1) h2

/-- C2: whenever the flatten walk encounters two label steps with the same
(valid) name — at any nesting, block-internal labels included — compilation
records the duplicate-label error, and raising mode raises the aggregated
failure. -/
theorem claim_c2_duplicate_labels :
    ∀ (fuel : Nat) (scenario : List JSVal) (blocks : List (String × List JSVal))
      (cbs ivs : List String) (names : List String) (n : String) (r : CompileResult),
      collectLabelNames blocks fuel scenario = some names →
      2 ≤ names.count n →
      compileScenario fuel scenario blocks cbs ivs false = some (.ok r) →
      dupMsg n ∈ r.validationErrors
      ∧ ∃ msg, compileScenario fuel scenario blocks cbs ivs true = some (.error msg) := by
  intro fuel scenario blocks cbs ivs names n r hcol hcount hc
  obtain ⟨st, hf, hsteps, hlabels, herrs⟩ := compile_ok_inv hc
  obtain ⟨names', hcol', hpre, hmono, hnames, hd5, hd6⟩ :=
    flatten_collect blocks fuel scenario none ⟨[], [], [], []⟩ st hf
  rw [hcol] at hcol'
  have hnn : names' = names := (Option.some.inj hcol').symm
  subst hnn
  have hdup : dupMsg n ∈ st.validationErrors := hd6 n hcount
  have hall : dupMsg n ∈ allErrors ivs cbs st := by
    unfold allErrors
    exact List.mem_append_left _ (List.mem_append_left _ (List.mem_append_left _ hdup))
  constructor
  · rw [herrs]
    exact hall
  · refine ⟨_, compile_raise hf ?_⟩
    intro hemp
    rw [hemp] at hall
    exact absurd hall (List.not_mem_nil _)

/-- C2 witness: `[label "start", use "blk"]` with a block that defines
`label "start"` twice more — one top-level occurrence, two block-internal —
records the duplicate-label error and raising mode throws. -/
theorem claim_c2_duplicate_labels_witness :
    dupMsg "start"
      ∈ (CompileResult.mk [Helpers.label (.vStr "start")] [("start", 0)]
          [dupMsg "start", dupMsg "start"]).validationErrors
    ∧ ∃ msg,
        compileScenario 4 [Helpers.label (.vStr "start"), Helpers.use (.vStr "blk")]
          [("blk", [Helpers.label (.vStr "start"),
                    Helpers.label (.vStr "start")])] [] [] true
          = some (.error msg) := by
  exact claim_c2_duplicate_labels 4
    [Helpers.label (.vStr "start"), Helpers.use (.vStr "blk")]
    [("blk", [Helpers.label (.vStr "start"), Helpers.label (.vStr "start")])]
    [] [] ["start", "start", "start"] "start"
    (CompileResult.mk [Helpers.label (.vStr "start")] [("start", 0)]
      [dupMsg "start", dupMsg "start"])
    rfl (by decide) (by rfl)
theorem lookup_setField_self : ∀ (fs : List (String × JSVal)) (k : String) (v : JSVal),
    (setField fs k v).lookup k = some v := by
  intro fs k v
  induction fs with
  | nil => simp [setField, List.lookup]
  | cons p rest ih =>
    obtain ⟨a, b⟩ := p
    by_cases ha : (a == k) = true
    · simp [setField, ha, List.lookup]
    · have hane : a ≠ k := by simpa using ha
      have hka : (k == a) = false := beq_eq_false_iff_ne.mpr (fun h => hane h.symm)
      simp only [setField, ha, Bool.false_eq_true, if_false]
      simp [List.lookup, hka, ih]

theorem lookup_setField_ne : ∀ (fs : List (String × JSVal)) (k k' : String) (v : JSVal),
    k' ≠ k → (setField fs k v).lookup k' = fs.lookup k' := by
  intro fs k k' v hk
  have hkk : (k' == k) = false := beq_eq_false_iff_ne.mpr hk
  induction fs with
  | nil => simp [setField, List.lookup, hkk]
  | cons p rest ih =>
    obtain ⟨a, b⟩ := p
    by_cases ha : (a == k) = true
    · have hak : a = k := by simpa using ha
      subst hak
      simp only [setField, beq_self_eq_true, if_true]
      simp [List.lookup, hkk]
    · simp only [setField, ha, Bool.false_eq_true, if_false]
      by_cases hka : (k' == a) = true
      · simp [List.lookup, hka]
      · simp only [Bool.not_eq_true] at hka
        simp [List.lookup, hka, ih]

/-- A flatten-guard-passing non-array entry is an object. -/
theorem obj_of_guard {step : JSVal} (ht : step.truthy = true)
    (hobj : step.typeOf = "object") (harr : step.isArr = false) :
    ∃ fs, step = .vObj fs := by
  cases step <;> simp_all [JSVal.truthy, JSVal.typeOf, JSVal.isArr]

/-- Annotation of an object changes no field other than `__sourceBlock`. -/
theorem annotate_getField_obj (fs : List (String × JSVal)) (src : Option JSVal)
    (k : String) (hk : k ≠ "__sourceBlock") :
    (annotate (.vObj fs) src).getField k = (JSVal.vObj fs).getField k := by
  cases src with
  | none => rfl
  | some sv =>
    by_cases hsv : sv.truthy = true
    · simp only [annotate, hsv, if_true]
      simp [JSVal.getField, lookup_setField_ne fs "__sourceBlock" k sv hk]
    · simp [annotate, hsv]

/-- Annotation of an object with a truthy source tags it with that source. -/
theorem annotate_marker_obj (fs : List (String × JSVal)) (sv : JSVal)
    (hsv : sv.truthy = true) :
    (annotate (.vObj fs) (some sv)).getField "__sourceBlock" = sv := by
  simp only [annotate, hsv, if_true]
  simp [JSVal.getField, lookup_setField_self]

theorem getD_append_lt {α : Type} (l l' : List α) (d : α) (i : Nat) (h : i < l.length) :
    (l ++ l').getD i d = l.getD i d := by
  rw [List.getD_eq_getElem?_getD, List.getD_eq_getElem?_getD, List.getElem?_append,
    if_pos h]

theorem getD_append_len {α : Type} (l : List α) (e d : α) :
    (l ++ [e]).getD l.length d = e := by
  rw [List.getD_eq_getElem?_getD, List.getElem?_append_right (Nat.le_refl _)]
  simp

/-- Appending a step extends `labelsInv` (labels, label set unchanged). -/
theorem labelsInv_extend {st : CState} {e : JSVal} {errs : List String}
    (hA : labelsInv st) :
    labelsInv { steps := st.steps ++ [e], labels := st.labels
                labelSet := st.labelSet, validationErrors := errs } := by
  intro n idx hmem
  obtain ⟨h1, h2, h3, h4, h5⟩ := hA n idx hmem
  refine ⟨by simp; omega, ?_, ?_, ?_, h5⟩ <;>
    simp only [getD_append_lt st.steps [e] _ idx h1] <;> assumption

/-- Appending a step extends `blockLabelsInv` when the new step either is no
tagged label or satisfies the invariant's conclusion. -/
theorem blockLabelsInv_extend {st : CState} {e : JSVal} {errs : List String}
    (hB : blockLabelsInv st)
    (he : e.typeIs "label" = true → e.getField "__sourceBlock" ≠ .vUndef →
          ∀ n, e.getField "label" = .vStr n → n ∈ st.labelSet ∧ ∀ p ∈ st.labels, p.1 ≠ n) :
    blockLabelsInv { steps := st.steps ++ [e], labels := st.labels
                     labelSet := st.labelSet, validationErrors := errs } := by
  intro i hi hty hmark n hname
  simp only at hi hty hmark hname
  by_cases hlt : i < st.steps.length
  · rw [getD_append_lt st.steps [e] _ i hlt] at hty hmark hname
    exact hB i hlt hty hmark n hname
  · have hieq : i = st.steps.length := by
      simp only [List.length_append, List.length_cons, List.length_nil] at hi
      omega
    subst hieq
    rw [getD_append_len] at hty hmark hname
    exact he hty hmark n hname

/-- The flatten walk preserves the label-table and block-label invariants:
entries of `labels` are top-level (untagged) emitted label steps at their
absolute index, and emitted `__sourceBlock`-tagged label steps never have
their name among the keys of `labels`.  Requires scenario and block entries
to be non-arrays and top-level entries to carry no spoofed `__sourceBlock`
field. -/
theorem flatten_inv (blocks : List (String × List JSVal))
    (hblk : ∀ p ∈ blocks, ∀ e ∈ p.2, e.isArr = false) :
    ∀ (fuel : Nat) (input : List JSVal) (src : Option JSVal) (st st' : CState),
      flatten blocks fuel input src st = some st' →
      (∀ e ∈ input, e.isArr = false) →
      (src = none → ∀ e ∈ input, (e.getField "__sourceBlock").isUndef = true) →
      labelsInv st → blockLabelsInv st →
      labelsInv st' ∧ blockLabelsInv st' := by
  intro fuel
  induction fuel with
  | zero =>
    intro input src st st' hf harr hns hA hB
    cases input with
    | nil =>
      simp only [flatten, Option.some.injEq] at hf
      subst hf
      exact ⟨hA, hB⟩
    | cons e rest => simp [flatten] at hf
  | succ fuel ih =>
    intro input src st st' hf harr hns hA hB
    cases input with
    | nil =>
      simp only [flatten, Option.some.injEq] at hf
      subst hf
      exact ⟨hA, hB⟩
    | cons step rest =>
      have harr_rest : ∀ e ∈ rest, e.isArr = false :=
        fun e he => harr e (List.mem_cons_of_mem _ he)
      have hns_rest : src = none →
          ∀ e ∈ rest, (e.getField "__sourceBlock").isUndef = true :=
        fun hs e he => hns hs e (List.mem_cons_of_mem _ he)
      by_cases hg : (!step.truthy || step.typeOf != "object") = true
      · simp only [flatten, hg, if_true] at hf
        exact ih rest src _ st' hf harr_rest hns_rest hA hB
      · have hto : step.truthy = true ∧ step.typeOf = "object" := by
          simpa using hg
        obtain ⟨fs, rfl⟩ := obj_of_guard hto.1 hto.2 (harr step (List.mem_cons_self _ _))
        by_cases hu : (JSVal.vObj fs).typeIs "use" = true
        · cases hb : blocks.lookup (JSVal.jsToString ((JSVal.vObj fs).getField "block")) with
          | none =>
            simp only [flatten, hg, Bool.false_eq_true, if_false, hu, if_true, hb] at hf
            exact ih rest src _ st' hf harr_rest hns_rest hA hB
          | some block =>
            simp only [flatten, hg, Bool.false_eq_true, if_false, hu, if_true, hb] at hf
            cases hb1 : flatten blocks fuel block
                (some ((JSVal.vObj fs).getField "block")) st with
            | none => rw [hb1] at hf; simp at hf
            | some st₁ =>
              rw [hb1] at hf
              simp only at hf
              have hbe : ∀ e ∈ block, e.isArr = false :=
                hblk (JSVal.jsToString ((JSVal.vObj fs).getField "block"), block)
                  (lookup_mem hb)
              obtain ⟨hA1, hB1⟩ := ih block (some ((JSVal.vObj fs).getField "block"))
                st st₁ hb1 hbe (fun h => by simp at h) hA hB
              exact ih rest src st₁ st' hf harr_rest hns_rest hA1 hB1
        · by_cases hl : (JSVal.vObj fs).typeIs "label" = true
          · by_cases hbn : (!((JSVal.vObj fs).getField "label").truthy
                || ((JSVal.vObj fs).getField "label").typeOf != "string") = true
            · simp only [flatten, hg, Bool.false_eq_true, if_false, hu, hl, if_true,
                hbn] at hf
              exact ih rest src _ st' hf harr_rest hns_rest hA hB
            · have hlbl : ∃ s0, (JSVal.vObj fs).getField "label" = .vStr s0 := by
                have h2 := (by simpa using hbn :
                  ((JSVal.vObj fs).getField "label").truthy = true
                    ∧ ((JSVal.vObj fs).getField "label").typeOf = "string")
                cases hx : (JSVal.vObj fs).getField "label" <;>
                  simp_all [JSVal.truthy, JSVal.typeOf]
              obtain ⟨s0, hs0⟩ := hlbl
              have hname_eq : JSVal.jsToString ((JSVal.vObj fs).getField "label") = s0 := by
                rw [hs0]; rfl
              by_cases hdup : st.labelSet.contains
                  (JSVal.jsToString ((JSVal.vObj fs).getField "label")) = true
              · simp only [flatten, hg, Bool.false_eq_true, if_false, hu, hl, if_true,
                  hbn, hdup] at hf
                exact ih rest src _ st' hf harr_rest hns_rest hA hB
              · simp only [flatten, hg, Bool.false_eq_true, if_false, hu, hl, if_true,
                  hbn, hdup] at hf
                have hnotmem : s0 ∉ st.labelSet := by
                  rw [hname_eq] at hdup
                  simpa using hdup
                rw [hname_eq] at hf
                set e := annotate (JSVal.vObj fs) src with hedef
                have hety : e.typeIs "label" = true := by
                  rw [hedef, JSVal.typeIs]
                  rw [annotate_getField_obj fs src "type" (by decide)]
                  exact hl
                have helbl : e.getField "label" = .vStr s0 := by
                  rw [hedef, annotate_getField_obj fs src "label" (by decide)]
                  exact hs0
                have hmarkRaw : src = none →
                    (JSVal.vObj fs).getField "__sourceBlock" = .vUndef := by
                  intro hsn
                  have hu0 := hns hsn (JSVal.vObj fs) (List.mem_cons_self _ _)
                  revert hu0
                  cases hx : (JSVal.vObj fs).getField "__sourceBlock" <;>
                    simp [JSVal.isUndef]
                refine ih rest src _ st' hf harr_rest hns_rest ?_ ?_
                · -- labelsInv of the pushed state
                  intro n idx hmem
                  by_cases hsrc : src.isNone = true
                  · simp only [pushStep, hsrc, if_true] at hmem ⊢
                    rcases List.mem_append.mp hmem with hold | hnew
                    · obtain ⟨h1, h2, h3, h4, h5⟩ := hA n idx hold
                      refine ⟨by simp; omega, ?_, ?_, ?_, List.mem_cons_of_mem _ h5⟩ <;>
                        simp only [getD_append_lt st.steps [e] _ idx h1] <;> assumption
                    · have hpair : n = s0 ∧ idx = st.steps.length := by
                        simpa using hnew
                      obtain ⟨rfl, rfl⟩ := hpair
                      have hsrcnone : src = none := Option.isNone_iff_eq_none.mp hsrc
                      have hmark : e.getField "__sourceBlock" = .vUndef := by
                        rw [hedef, hsrcnone]
                        exact hmarkRaw hsrcnone
                      refine ⟨by simp, ?_, ?_, ?_, List.mem_cons_self _ _⟩ <;>
                        rw [getD_append_len]
                      · exact hety
                      · exact helbl
                      · exact hmark
                  · simp only [pushStep, hsrc, Bool.false_eq_true, if_false] at hmem ⊢
                    obtain ⟨h1, h2, h3, h4, h5⟩ := hA n idx hmem
                    refine ⟨by simp; omega, ?_, ?_, ?_, List.mem_cons_of_mem _ h5⟩ <;>
                      simp only [getD_append_lt st.steps [e] _ idx h1] <;> assumption
                · -- blockLabelsInv of the pushed state
                  intro i hi hty hmark n hname
                  simp only [pushStep] at hi hty hmark hname ⊢
                  by_cases hlt : i < st.steps.length
                  · rw [getD_append_lt st.steps [e] _ i hlt] at hty hmark hname
                    obtain ⟨hin, hkeys⟩ := hB i hlt hty hmark n hname
                    refine ⟨List.mem_cons_of_mem _ hin, ?_⟩
                    intro p hp
                    by_cases hsrc : src.isNone = true
                    · simp only [hsrc, if_true] at hp
                      rcases List.mem_append.mp hp with hold | hnew
                      · exact hkeys p hold
                      · have : p = (s0, st.steps.length) := by simpa using hnew
                        subst this
                        exact fun hc => hnotmem (by rw [show s0 = n from hc]; exact hin)
                    · simp only [hsrc, Bool.false_eq_true, if_false] at hp
                      exact hkeys p hp
                  · have hieq : i = st.steps.length := by
                      simp only [List.length_append, List.length_cons,
                        List.length_nil] at hi
                      omega
                    subst hieq
                    rw [getD_append_len] at hty hmark hname
                    have hn0 : n = s0 := by
                      rw [helbl] at hname
                      exact (JSVal.vStr.inj hname).symm
                    subst hn0
                    refine ⟨List.mem_cons_self _ _, ?_⟩
                    intro p hp
                    by_cases hsrc : src.isNone = true
                    · exfalso
                      have hsrcnone : src = none := Option.isNone_iff_eq_none.mp hsrc
                      apply hmark
                      rw [hedef, hsrcnone]
                      exact hmarkRaw hsrcnone
                    · simp only [hsrc, Bool.false_eq_true, if_false] at hp
                      obtain ⟨_, _, _, _, h5⟩ := hA p.1 p.2 hp
                      exact fun hc => hnotmem (hc ▸ h5)
          · have hety : (annotate (JSVal.vObj fs) src).typeIs "label" = false := by
              rw [JSVal.typeIs, annotate_getField_obj fs src "type" (by decide)]
              exact (by simpa using hl)
            by_cases hj : (JSVal.vObj fs).typeIs "ifJump" = true
            · simp only [flatten, hg, Bool.false_eq_true, if_false, hu, hl, hj,
                if_true] at hf
              refine ih rest src _ st' hf harr_rest hns_rest (labelsInv_extend hA)
                (blockLabelsInv_extend hB ?_)
              intro hc
              rw [hety] at hc
              exact absurd hc (by simp)
            · simp only [flatten, hg, Bool.false_eq_true, if_false, hu, hl, hj] at hf
              refine ih rest src _ st' hf harr_rest hns_rest (labelsInv_extend hA)
                (blockLabelsInv_extend hB ?_)
              intro hc
              rw [hety] at hc
              exact absurd hc (by simp)

/-- C3: in a successful compilation (no arrays among entries, no spoofed
top-level source-block markers), every entry of the returned `labels` table
maps a name to the absolute index in `steps` of a top-level label step of that
name (one carrying no `__sourceBlock` tag), while every label step that the
flatten emitted from inside a block (it carries a `__sourceBlock` tag) has a
name that is absent from the `labels` table: block-internal labels appear in
`steps` but are not addressable. -/
theorem claim_c3_block_labels {fuel : Nat} {scenario : List JSVal}
    {blocks : List (String × List JSVal)} {cbs ivs : List String} {te : Bool}
    {r : CompileResult}
    (hc : compileScenario fuel scenario blocks cbs ivs te = some (.ok r))
    (harr : ∀ e ∈ scenario, e.isArr = false)
    (hblk : ∀ p ∈ blocks, ∀ e ∈ p.2, e.isArr = false)
    (hns : ∀ e ∈ scenario, (e.getField "__sourceBlock").isUndef = true) :
    (∀ n idx, r.labels.lookup n = some idx →
      idx < r.steps.length
        ∧ (r.steps.getD idx .vUndef).typeIs "label" = true
        ∧ (r.steps.getD idx .vUndef).getField "label" = .vStr n
        ∧ (r.steps.getD idx .vUndef).getField "__sourceBlock" = .vUndef)
    ∧ (∀ i, i < r.steps.length →
        (r.steps.getD i .vUndef).typeIs "label" = true →
        (r.steps.getD i .vUndef).getField "__sourceBlock" ≠ .vUndef →
        ∀ n, (r.steps.getD i .vUndef).getField "label" = .vStr n →
          r.labels.lookup n = none) := by
  obtain ⟨st, hf, hsteps, hlabels, herrs⟩ := compile_ok_inv hc
  have hinitA : labelsInv ⟨[], [], [], []⟩ := by
    intro n idx hmem
    simp at hmem
  have hinitB : blockLabelsInv ⟨[], [], [], []⟩ := by
    intro i hi
    simp at hi
  obtain ⟨hA, hB⟩ := flatten_inv blocks hblk fuel scenario none _ st hf harr
    (fun _ => hns) hinitA hinitB
  constructor
  · intro n idx hlk
    rw [hlabels] at hlk
    obtain ⟨h1, h2, h3, h4, _⟩ := hA n idx (lookup_mem hlk)
    rw [hsteps]
    exact ⟨h1, h2, h3, h4⟩
  · intro i hi hty hmark n hname
    rw [hsteps] at hi hty hmark hname
    obtain ⟨_, hkeys⟩ := hB i hi hty hmark n hname
    rw [hlabels]
    exact lookup_eq_none hkeys

theorem claim_c3_block_labels_witness :
    compileScenario 10 c3Scenario c3Blocks [] ["x"] false = some (.ok c3Result)
    ∧ (c3Result.steps.getD 1 .vUndef).typeIs "label" = true
    ∧ (c3Result.steps.getD 1 .vUndef).getField "label" = .vStr "insideBlock"
    ∧ c3Result.labels.lookup "insideBlock" = none
    ∧ c3Result.labels.lookup "start" = some 0 := by
  have hmain := @claim_c3_block_labels 10 c3Scenario c3Blocks [] ["x"] false c3Result
    (by rfl)
    (by simp [c3Scenario, Helpers.label, Helpers.use, JSVal.isArr])
    (by simp [c3Blocks, Helpers.label, Helpers.move, JSVal.isArr])
    (by
      have hall : c3Scenario.all
          (fun e => (e.getField "__sourceBlock").isUndef) = true := rfl
      exact fun e he => List.all_eq_true.mp hall e he)
  refine ⟨by rfl, by rfl, by rfl, ?_, by rfl⟩
  exact hmain.2 1 (by decide) (by rfl) (fun h => JSVal.noConfusion h) "insideBlock"
    (by rfl)

end AnimScn